import Mathlib

/-!
# Winnow classifier (`src/classifiers/winnow.c`)

A shallow embedding of `classify_callback`, `learn_callback`, `winnow_classify` and
`winnow_learn`.

* Weights are `float` values and the accumulator `sum` is a `double`; both are modelled by
  the type `fp` below, with the rounding of IEEE 754 binary32 and binary64. The counters
  are `int`s, modelled as integers that wrap at 32 bits.
* `GTree *input` is the list of its token nodes in the order `g_tree_foreach` visits them.
* The statfile pool (`statfile.c`, not part of this source file) is a state that is threaded
  through the calls. Every call to the pool is appended to `trace`, so that statements about
  which operations a function performs are statements about the trace.
* A `stat_file_t *` handle is the path of the store it is bound to; `NULL` is `none`.
-/

namespace Winnow

/-! ## Floating-point values

The weights are `float` (binary32) and the accumulator `sum` is `double` (binary64). A
value of either type is a `fp`: a NaN, an infinity, or a signed dyadic number
`m * 2 ^ e`. The operations round to nearest, ties to even, as the IEEE 754 operations of
the C code do (a C implementation that evaluates `float` expressions in `float`). -/

/-- The position of the highest set bit of `n` (0 for 0 and 1), by halving at most `fuel`
times. -/
def ilog2_aux : Nat → Nat → Nat
  | 0, _ => 0
  | fuel + 1, n => if n < 2 then 0 else ilog2_aux fuel (n / 2) + 1

/-- The position of the highest set bit of `n` (0 for 0 and 1). -/
def ilog2 (n : Nat) : Nat := ilog2_aux n n

/-- A floating-point value: NaN, plus or minus infinity, or plus or minus `m * 2 ^ e`. -/
inductive fp where
  | nan
  | inf (neg : Bool)
  | fin (neg : Bool) (m : Nat) (e : Int)
deriving DecidableEq, Repr

/-- The value `+0.0`. -/
def fp.zero : fp := fp.fin false 0 0

/-- The finite value with an odd mantissa (or the zero) that equals `m * 2 ^ e`. -/
def fp.canon (neg : Bool) (m : Nat) (e : Int) : fp :=
  if m = 0 then fp.fin neg 0 0
  else fp.fin neg (m / Nat.gcd m (2 ^ (ilog2 m + 1)))
    (e + (ilog2 (Nat.gcd m (2 ^ (ilog2 m + 1))) : Int))

/-- The number `m * 2 ^ e` rounded to nearest, ties to even, in the format with `p` bits
of precision, least exponent `qmin` of a unit in the last place, and greatest exponent
`emax`. -/
def fp.round (p : Nat) (qmin emax : Int) (neg : Bool) (m : Nat) (e : Int) : fp :=
  if m = 0 then fp.fin neg 0 0
  else
    let s : Int := max ((ilog2 m : Int) + 1 - (p : Int)) (qmin - e)
    if s ≤ 0 then
      if (ilog2 m : Int) + e > emax then fp.inf neg else fp.canon neg m e
    else
      let k := s.toNat
      let q := m / 2 ^ k
      let r := m % 2 ^ k
      let q1 := if 2 ^ (k - 1) < r ∨ (r = 2 ^ (k - 1) ∧ q % 2 = 1) then q + 1 else q
      if (ilog2 q1 : Int) + (e + s) > emax then fp.inf neg else fp.canon neg q1 (e + s)

/-- Rounding to `float` (binary32). -/
def fp.round32 (neg : Bool) (m : Nat) (e : Int) : fp := fp.round 24 (-149) 127 neg m e

/-- Rounding to `double` (binary64). -/
def fp.round64 (neg : Bool) (m : Nat) (e : Int) : fp := fp.round 53 (-1074) 1023 neg m e

/-- The product of two `float`s, a `float`. -/
def fp.mul32 : fp → fp → fp
  | fp.nan, _ => fp.nan
  | _, fp.nan => fp.nan
  | fp.inf n1, fp.inf n2 => fp.inf (xor n1 n2)
  | fp.inf n1, fp.fin n2 m _ => if m = 0 then fp.nan else fp.inf (xor n1 n2)
  | fp.fin n1 m _, fp.inf n2 => if m = 0 then fp.nan else fp.inf (xor n1 n2)
  | fp.fin n1 m1 e1, fp.fin n2 m2 e2 => fp.round32 (xor n1 n2) (m1 * m2) (e1 + e2)

/-- The signed integer `(-1) ^ neg * m * 2 ^ k`. -/
def fp.scaled (neg : Bool) (m : Nat) (k : Int) : Int :=
  (if neg then -1 else 1) * ((m * 2 ^ k.toNat : Nat) : Int)

/-- The sum of two `double`s, a `double`. -/
def fp.add64 : fp → fp → fp
  | fp.nan, _ => fp.nan
  | _, fp.nan => fp.nan
  | fp.inf n1, fp.inf n2 => if n1 = n2 then fp.inf n1 else fp.nan
  | fp.inf n1, fp.fin _ _ _ => fp.inf n1
  | fp.fin _ _ _, fp.inf n2 => fp.inf n2
  | fp.fin n1 m1 e1, fp.fin n2 m2 e2 =>
    let s : Int := fp.scaled n1 m1 (e1 - min e1 e2) + fp.scaled n2 m2 (e2 - min e1 e2)
    if s = 0 then fp.fin (n1 && n2) 0 0
    else fp.round64 (decide (s < 0)) s.natAbs (min e1 e2)

/-- The quotient of two `double`s, a `double`. The quotient of the mantissas is taken with
at least 56 bits and a sticky bit, and then rounded. -/
def fp.div64 : fp → fp → fp
  | fp.nan, _ => fp.nan
  | _, fp.nan => fp.nan
  | fp.inf _, fp.inf _ => fp.nan
  | fp.inf n1, fp.fin n2 _ _ => fp.inf (xor n1 n2)
  | fp.fin n1 _ _, fp.inf n2 => fp.fin (xor n1 n2) 0 0
  | fp.fin n1 m1 e1, fp.fin n2 m2 e2 =>
    if m2 = 0 then (if m1 = 0 then fp.nan else fp.inf (xor n1 n2))
    else if m1 = 0 then fp.fin (xor n1 n2) 0 0
    else
      fp.round64 (xor n1 n2)
        (2 * ((m1 * 2 ^ (ilog2 m2 + 56)) / m2) +
          (if (m1 * 2 ^ (ilog2 m2 + 56)) % m2 = 0 then 0 else 1))
        (e1 - e2 - ((ilog2 m2 + 56 : Nat) : Int) - 1)

/-- The comparison `a < b` of two floating-point values; false when one is a NaN. -/
def fp.lt : fp → fp → Bool
  | fp.nan, _ => false
  | _, fp.nan => false
  | fp.inf n1, fp.inf n2 => n1 && !n2
  | fp.inf n1, fp.fin _ _ _ => n1
  | fp.fin _ _ _, fp.inf n2 => !n2
  | fp.fin n1 m1 e1, fp.fin n2 m2 e2 =>
    decide (fp.scaled n1 m1 (e1 - min e1 e2) < fp.scaled n2 m2 (e2 - min e1 e2))

/-- The conversion of an `int` to `double`, which is exact. -/
def fp.of_int (i : Int) : fp := fp.canon (decide (i < 0)) i.natAbs 0

/-- The conversion of a `double` to `float`. -/
def fp.to_float : fp → fp
  | fp.nan => fp.nan
  | fp.inf n => fp.inf n
  | fp.fin n m e => fp.round32 n m e

/-- The `double` that a decimal literal with the value `n / d` denotes. -/
def fp.literal (n d : Nat) : fp := fp.div64 (fp.of_int n) (fp.of_int d)

/-- The rational number a finite floating-point value stands for (0 for the others). -/
def fp.value : fp → ℚ
  | fp.fin neg m e => (if neg then -1 else 1) * (m : ℚ) * (2 : ℚ) ^ e
  | _ => 0

/-- The value of an `int` after `++`, with the wrap-around of 32-bit two's complement. -/
def int_incr (x : Int) : Int := (x + 1 + 2147483648) % 4294967296 - 2147483648

/-! ## Constants -/

/-- The promotion factor, `#define WINNOW_PROMOTION 1.23`, a `double` literal. -/
def WINNOW_PROMOTION : fp := fp.literal 123 100

/-- The demotion factor, `#define WINNOW_DEMOTION 0.83`, a `double` literal. -/
def WINNOW_DEMOTION : fp := fp.literal 83 100

/-- The `double` literal `0.00001` both callbacks compare a read block value with. -/
def NOT_FOUND : fp := fp.literal 1 100000

/-! ## Data model -/

/-- The two hashes of a `token_node_t`, the key of a block. -/
structure token_node_t where
  h1 : Nat
  h2 : Nat
deriving DecidableEq, Repr

/-- The fields of `struct statfile` (a class of the config) that the classifier reads. -/
structure statfile where
  symbol : String
  path : String
  size : Nat
deriving DecidableEq, Repr

/-- The fields of `struct classifier_config` that the classifier reads. -/
structure classifier_config where
  statfiles : List statfile
  metric : String

/-- The context made by `winnow_init`: it only carries the config. -/
structure classifier_ctx where
  cfg : classifier_config

/-- One call to the statfile pool, as recorded in the trace. -/
inductive Op where
  | is_open (path : String)
  | open_file (path : String)
  | create (path : String) (blocks : Nat)
  | get_block (file : String) (h1 h2 : Nat) (now : Nat)
  | set_block (file : String) (h1 h2 : Nat) (now : Nat) (value : fp)
  | lock_file (file : String)
  | unlock_file (file : String)
deriving DecidableEq

/-- Modelled from the spec: the statfile pool (`statfile_pool_t`, implemented in `statfile.c`,
which is not in this source file). `files path` is the store persisted at `path`, if there
is one, as the `float` weight of every fingerprint (`0.0` for a fingerprint never written:
the "absent" sentinel). `opened` lists the paths with an open handle, `locked` the handles
currently locked. `open_fault` and `create_fault` say for which paths the engine refuses an
open, respectively a create. `trace` records the calls made so far, oldest first. -/
structure statfile_pool_t where
  files : String → Option (Nat → Nat → fp)
  opened : List String
  locked : List String
  open_fault : String → Bool
  create_fault : String → Bool
  trace : List Op

/-- The pool after recording one more call. -/
def statfile_pool_t.log (pool : statfile_pool_t) (op : Op) : statfile_pool_t :=
  { pool with trace := pool.trace ++ [op] }

/-- The weight a read of the store at `path` yields for the block `(h1, h2)`: the stored
value, `0` when nothing is stored there. -/
def statfile_pool_t.weight (pool : statfile_pool_t) (path : String) (h1 h2 : Nat) : fp :=
  match pool.files path with
  | some blocks => blocks h1 h2
  | none => fp.zero

/-- Modelled from the spec: `statfile_pool_is_open` (in `statfile.c`) returns the handle of
the store at `path` when the pool already holds one, `NULL` otherwise. -/
def statfile_pool_is_open (pool : statfile_pool_t) (path : String) :
    Option String × statfile_pool_t :=
  (if path ∈ pool.opened then some path else none, pool.log (Op.is_open path))

/-- Modelled from the spec: `statfile_pool_open` (in `statfile.c`), "`open(path) -> handle |
not_found`, non-creating open of an existing store". It fails when there is no store at
`path` or when the engine refuses the open. -/
def statfile_pool_open (pool : statfile_pool_t) (path : String) :
    Option String × statfile_pool_t :=
  let pool := pool.log (Op.open_file path)
  if (pool.files path).isSome && !pool.open_fault path then
    (some path, { pool with opened := path :: pool.opened })
  else
    (none, pool)

/-- Modelled from the spec: `statfile_pool_create` (in `statfile.c`), "`create(path, capacity)
-> success | failure`, allocates a new store sized for `capacity` weight slots". It returns
`-1` on failure and `0` on success. The new store holds no weight; a store that is already
there is left as it is (the spec gives create no other effect). -/
def statfile_pool_create (pool : statfile_pool_t) (path : String) (blocks : Nat) :
    Int × statfile_pool_t :=
  let pool := pool.log (Op.create path blocks)
  if pool.create_fault path then
    (-1, pool)
  else
    (0, { pool with
          files := fun p =>
            if p = path ∧ (pool.files path).isNone then some (fun _ _ => fp.zero)
            else pool.files p })

/-- Modelled from the spec: `statfile_pool_get_block` (in `statfile.c`), "`get_weight(handle,
fingerprint, as_of) -> float`, returns the stored weight or a sentinel indicating absent". -/
def statfile_pool_get_block (pool : statfile_pool_t) (file : String) (h1 h2 : Nat)
    (now : Nat) : fp × statfile_pool_t :=
  (pool.weight file h1 h2, pool.log (Op.get_block file h1 h2 now))

/-- Modelled from the spec: `statfile_pool_set_block` (in `statfile.c`), "`set_weight(handle,
fingerprint, as_of, value)`": afterwards the store behind the handle holds `value` for the
fingerprint and every other weight is as before. -/
def statfile_pool_set_block (pool : statfile_pool_t) (file : String) (h1 h2 : Nat)
    (now : Nat) (value : fp) : statfile_pool_t :=
  let pool := pool.log (Op.set_block file h1 h2 now value)
  { pool with
    files := fun p =>
      if p = file then
        (pool.files file).map
          (fun blocks a b => if a = h1 ∧ b = h2 then value else blocks a b)
      else pool.files p }

/-- Modelled from the spec: `statfile_pool_lock_file` (in `statfile.c`), "`lock(handle)`". -/
def statfile_pool_lock_file (pool : statfile_pool_t) (file : String) : statfile_pool_t :=
  let pool := pool.log (Op.lock_file file)
  { pool with locked := file :: pool.locked }

/-- Modelled from the spec: `statfile_pool_unlock_file` (in `statfile.c`),
"`unlock(handle)`". -/
def statfile_pool_unlock_file (pool : statfile_pool_t) (file : String) : statfile_pool_t :=
  let pool := pool.log (Op.unlock_file file)
  { pool with locked := pool.locked.erase file }

/-- The fields of `struct winnow_callback_data` other than the pool (threaded separately) and
the context (never read by the callbacks). -/
structure winnow_callback_data where
  file : Option String
  sum : fp
  count : Int
  in_class : Int
  now : Nat

/-! ## The callbacks -/

/-- The function `classify_callback`: add the block value of the node, a `float`, to the
`double` `sum` (1 when the read is below `0.00001`), and count the node. A `NULL` file
never reaches the callback. -/
def classify_callback (node : token_node_t)
    (s : statfile_pool_t × winnow_callback_data) : statfile_pool_t × winnow_callback_data :=
  match s.2.file with
  | none => s
  | some file =>
    let r := statfile_pool_get_block s.1 file node.h1 node.h2 s.2.now
    let v := r.1
    let cd := s.2
    let cd :=
      if fp.lt v NOT_FOUND then { cd with sum := fp.add64 cd.sum (fp.of_int 1) }
      else { cd with sum := fp.add64 cd.sum v, in_class := int_incr cd.in_class }
    (r.2, { cd with count := int_incr cd.count })

/-- The function `learn_callback`: multiply the block value of the node by the promotion
or demotion factor, converted to `float` (a read below `0.00001` becomes the factor
itself), and count the node. A `NULL` file never reaches the callback. -/
def learn_callback (node : token_node_t)
    (s : statfile_pool_t × winnow_callback_data) : statfile_pool_t × winnow_callback_data :=
  match s.2.file with
  | none => s
  | some file =>
    let cd := s.2
    let c := fp.to_float (if cd.in_class ≠ 0 then WINNOW_PROMOTION else WINNOW_DEMOTION)
    let r := statfile_pool_get_block s.1 file node.h1 node.h2 cd.now
    let v := r.1
    let pool :=
      if fp.lt v NOT_FOUND then statfile_pool_set_block r.2 file node.h1 node.h2 cd.now c
      else statfile_pool_set_block r.2 file node.h1 node.h2 cd.now (fp.mul32 v c)
    (pool, { cd with count := int_incr cd.count })

/-- The traversal `g_tree_foreach (input, f, &data)` with a callback that always returns
`FALSE`: every node is visited, in order. -/
def g_tree_foreach (input : List token_node_t)
    (f : token_node_t → statfile_pool_t × winnow_callback_data →
      statfile_pool_t × winnow_callback_data)
    (s : statfile_pool_t × winnow_callback_data) : statfile_pool_t × winnow_callback_data :=
  input.foldl (fun acc node => f node acc) s

/-! ## winnow_classify -/

/-- The local state of `winnow_classify` across its `while (cur)` loop. -/
structure classify_state where
  pool : statfile_pool_t
  data : winnow_callback_data
  max : fp
  sel : Option statfile

/-- One iteration of the `while (cur)` loop of `winnow_classify`, for the class `st`. -/
def classify_step (input : List token_node_t) (s : classify_state) (st : statfile) :
    classify_state :=
  let r := statfile_pool_is_open s.pool st.path
  let r := match r.1 with
    | some file => (some file, r.2)
    | none => statfile_pool_open r.2 st.path
  match r.1 with
  | none => { s with pool := r.2, data := { s.data with file := none } }
  | some file =>
    let d := g_tree_foreach input classify_callback (r.2, { s.data with file := some file })
    let res : fp := if d.2.count ≠ 0 then fp.div64 d.2.sum (fp.of_int d.2.count) else fp.zero
    if fp.lt s.max res then { pool := d.1, data := d.2, max := res, sel := some st }
    else { pool := d.1, data := d.2, max := s.max, sel := s.sel }

/-- The local state of `winnow_classify` before its loop, lines 105 to 116. -/
def classify_init (pool : statfile_pool_t) (now : Nat) : classify_state :=
  { pool := pool,
    data := { file := none, sum := fp.zero, count := 0, in_class := 0, now := now },
    max := fp.zero, sel := none }

/-- What `winnow_classify` leaves behind: the pool, the selected class, and the result it
inserted into the task (metric, symbol, flag 1), if any; and, to state what it computed,
the values its locals `max` and `data` have when it returns. -/
structure classify_result where
  pool : statfile_pool_t
  sel : Option statfile
  inserted : Option (String × String × Int)
  max : fp
  data : winnow_callback_data

/-- The function `winnow_classify`. `now` is the value `time (NULL)` returns. The field
`in_class` of the callback data is not initialised by the source and never read on this
path; it starts at 0 here. -/
def winnow_classify (ctx : classifier_ctx) (pool : statfile_pool_t)
    (input : List token_node_t) (now : Nat) : classify_result :=
  let s := ctx.cfg.statfiles.foldl (classify_step input) (classify_init pool now)
  { pool := s.pool, sel := s.sel,
    inserted := s.sel.map (fun st => (ctx.cfg.metric, st.symbol, 1)),
    max := s.max, data := s.data }

/-! ## winnow_learn -/

/-- The body of `if (strcmp (symbol, st->symbol) == 0)` in the loop of `winnow_learn`, up
to its `break`: open the store of `st`, and when that fails create it and open it again.
The second component is `none` when the function left through one of its two `return`s,
and the value of `data.file` otherwise. `block_size` is `sizeof (struct stat_file_block)`. -/
def learn_acquire (block_size : Nat) (st : statfile) (pool : statfile_pool_t) :
    statfile_pool_t × Option (Option String) :=
  let r := statfile_pool_open pool st.path
  match r.1 with
  | some file => (r.2, some (some file))
  | none =>
    let c := statfile_pool_create r.2 st.path (st.size / block_size)
    if c.1 = -1 then (c.2, none)
    else
      let r2 := statfile_pool_open c.2 st.path
      match r2.1 with
      | none => (r2.2, none)
      | some file => (r2.2, some (some file))

/-- The `while (cur)` loop of `winnow_learn`. The loop writes no field of the callback data
but `file`, which is `NULL` before it. The second component is `none` when the function
left through a `return`, and the value of `data.file` after the loop otherwise (after the
`break`, or `NULL` when the list is exhausted). -/
def learn_loop (block_size : Nat) (symbol : String) :
    List statfile → statfile_pool_t → statfile_pool_t × Option (Option String)
  | [], pool => (pool, some none)
  | st :: cur, pool =>
    if symbol = st.symbol then learn_acquire block_size st pool
    else learn_loop block_size symbol cur pool

/-- The function `winnow_learn`; it returns the pool it leaves behind. `now` is the value
`time (NULL)` returns, `block_size` is `sizeof (struct stat_file_block)`. -/
def winnow_learn (block_size : Nat) (ctx : classifier_ctx) (pool : statfile_pool_t)
    (symbol : String) (input : List token_node_t) (in_class : Int) (now : Nat) :
    statfile_pool_t :=
  let r := learn_loop block_size symbol ctx.cfg.statfiles pool
  match r.2 with
  | none => r.1
  | some none => r.1
  | some (some file) =>
    let data : winnow_callback_data :=
      { file := some file, sum := fp.zero, count := 0, in_class := in_class, now := now }
    let pool := statfile_pool_lock_file r.1 file
    let d := g_tree_foreach input learn_callback (pool, data)
    statfile_pool_unlock_file d.1 file

/-! ## Reference notions and examples -/

/-- The weight a token contributes to a score: 1 when the read is below `0.00001`. -/
def effective (v : fp) : fp := if fp.lt v NOT_FOUND then fp.of_int 1 else v

/-- The `double` sum `acc` after the effective weights of the tokens of `input` in the store
at `path` are added to it, in order. -/
def class_add (pool : statfile_pool_t) (path : String) (input : List token_node_t)
    (acc : fp) : fp :=
  input.foldl (fun acc n => fp.add64 acc (effective (pool.weight path n.h1 n.h2))) acc

/-- The `int` counter `c` after `m` increments. -/
def count_add (c : Int) (m : Nat) : Int := int_incr^[m] c

/-- The own score of a class: its sum of token weights divided by its token count, as the
`double`s the code would compute for the class from zeroed accumulators. -/
def class_score (pool : statfile_pool_t) (path : String) (input : List token_node_t) : fp :=
  fp.div64 (class_add pool path input fp.zero) (fp.of_int input.length)

/-- The store at `path` can be found open or be opened. -/
def usable (pool : statfile_pool_t) (path : String) : Bool :=
  decide (path ∈ pool.opened) || ((pool.files path).isSome && !pool.open_fault path)

/-- The calls that only read: `is_open`, `open` and `get_block`. -/
def Op.reads : Op → Bool
  | Op.is_open _ => true
  | Op.open_file _ => true
  | Op.get_block _ _ _ _ => true
  | _ => false

/-- What the loop of `winnow_classify` has computed so far, apart from the pool. -/
structure score_state where
  sum : fp
  count : Int
  max : fp
  sel : Option statfile

/-- The value of `*res` for the accumulators `sum` and `count`, lines 131 to 136. -/
def score_res (sum : fp) (count : Int) : fp :=
  if count ≠ 0 then fp.div64 sum (fp.of_int count) else fp.zero

/-- One iteration of the loop of `winnow_classify` on the accumulators alone, for stores
as they are in `pool`. -/
def score_step (pool : statfile_pool_t) (input : List token_node_t) (a : score_state)
    (st : statfile) : score_state :=
  if usable pool st.path then
    let sum := class_add pool st.path input a.sum
    let count := count_add a.count input.length
    if fp.lt a.max (score_res sum count) then
      { sum := sum, count := count, max := score_res sum count, sel := some st }
    else { sum := sum, count := count, max := a.max, sel := a.sel }
  else a

/-- The accumulators of a loop state. -/
def classify_state.scores (s : classify_state) : score_state :=
  { sum := s.data.sum, count := s.data.count, max := s.max, sel := s.sel }

/-- The relation between the pool `winnow_classify` started with and a pool later in the
call: same stores, same faults, same locks, the handles opened since are handles of usable
stores, and the calls made since only read. -/
structure reads_only (pool0 pool : statfile_pool_t) : Prop where
  files : pool.files = pool0.files
  open_fault : pool.open_fault = pool0.open_fault
  create_fault : pool.create_fault = pool0.create_fault
  locked : pool.locked = pool0.locked
  opened_mono : ∀ p, p ∈ pool0.opened → p ∈ pool.opened
  opened_usable : ∀ p, p ∈ pool.opened → usable pool0 p = true
  trace : ∃ ops : List Op, pool.trace = pool0.trace ++ ops ∧ ∀ op ∈ ops, op.reads = true

/-- The pool and handle `winnow_classify` has after its `is_open`/`open` attempt. -/
def classify_acquire (pool : statfile_pool_t) (path : String) :
    Option String × statfile_pool_t :=
  match (statfile_pool_is_open pool path).1 with
  | some file => (some file, (statfile_pool_is_open pool path).2)
  | none => statfile_pool_open (statfile_pool_is_open pool path).2 path

/-- The start state of the loop of `winnow_classify` on the accumulators. -/
def score_init : score_state := { sum := fp.zero, count := 0, max := fp.zero, sel := none }

/-- The `float` nearest to the decimal `n / d`. -/
def flt (n d : Nat) : fp := fp.to_float (fp.literal n d)

/-- Three classes A, B, C, in this order. -/
def abc_ctx : classifier_ctx :=
  { cfg := { statfiles := [⟨"A", "/a", 1024⟩, ⟨"B", "/b", 1024⟩, ⟨"C", "/c", 1024⟩],
             metric := "default" } }

/-- A pool with a store for each of the three classes, holding the weight 0.4, 0.9 and 0.7
respectively for every token; no handle is open, nothing is refused. -/
def abc_pool : statfile_pool_t :=
  { files := fun p =>
      if p = "/a" then some (fun _ _ => flt 2 5)
      else if p = "/b" then some (fun _ _ => flt 9 10)
      else if p = "/c" then some (fun _ _ => flt 7 10)
      else none,
    opened := [], locked := [], open_fault := fun _ => false,
    create_fault := fun _ => false, trace := [] }

/-- A document of one token. -/
def one_token : List token_node_t := [⟨1, 2⟩]

/-- The factor `c` of `learn_callback`, a `float`. -/
def learn_factor (in_class : Int) : fp :=
  fp.to_float (if in_class ≠ 0 then WINNOW_PROMOTION else WINNOW_DEMOTION)

/-- The value `learn_callback` writes for a block whose read is `v`, with factor `c`. -/
def learn_update (c v : fp) : fp := if fp.lt v NOT_FOUND then c else fp.mul32 v c

/-- The calls of a learning pass over the tokens: `get_block` and `set_block` on `file`. -/
def Op.on_block (file : String) : Op → Bool
  | Op.get_block f _ _ _ => decide (f = file)
  | Op.set_block f _ _ _ _ => decide (f = file)
  | _ => false

/-- The class `winnow_learn` acts on: the first class of the config that carries
`symbol`. -/
def learn_class (symbol : String) (sts : List statfile) : Option statfile :=
  sts.find? (fun st => decide (symbol = st.symbol))

/-- The open of the store at `path` succeeds. -/
def openable (pool : statfile_pool_t) (path : String) : Bool :=
  (pool.files path).isSome && !pool.open_fault path

/-- Successive calls of `winnow_learn` with the same symbol, document and `in_class`, one
call for each element of `nows` (the value `time (NULL)` returns in that call). -/
def winnow_learn_calls (block_size : Nat) (ctx : classifier_ctx) (symbol : String)
    (input : List token_node_t) (in_class : Int) : List Nat → statfile_pool_t → statfile_pool_t
  | [], pool => pool
  | now :: nows, pool =>
    winnow_learn_calls block_size ctx symbol input in_class nows
      (winnow_learn block_size ctx pool symbol input in_class now)

/-- Two classes X and Y, in this order. -/
def xy_ctx : classifier_ctx :=
  { cfg := { statfiles := [⟨"X", "/x", 1024⟩, ⟨"Y", "/y", 1024⟩], metric := "default" } }

/-- A pool with a store for X and one for Y, both holding the same weights: for the token
(1, 2) the `float` 546729 * 2 ^ 12, which 104 promotions of an unseen block leave, and for
every other token the `float` 10986791 * 2 ^ -21, which 8 promotions leave. -/
def xy_pool : statfile_pool_t :=
  { files := fun p =>
      if p = "/x" ∨ p = "/y" then
        some (fun h1 h2 =>
          if h1 = 1 ∧ h2 = 2 then fp.fin false 546729 12 else fp.fin false 10986791 (-21))
      else none,
    opened := [], locked := [], open_fault := fun _ => false,
    create_fault := fun _ => false, trace := [] }

/-- Four classes: the store of A exists and is empty, the store of B does not exist and
can be created, the store of C does not exist and cannot be created, the store of D does
not exist, can be created, and cannot be opened. -/
def abcd_ctx : classifier_ctx :=
  { cfg := { statfiles := [⟨"A", "/a", 1024⟩, ⟨"B", "/b", 1024⟩, ⟨"C", "/c", 1024⟩,
               ⟨"D", "/d", 1024⟩],
             metric := "default" } }

/-- The pool of `abcd_ctx`. -/
def abcd_pool : statfile_pool_t :=
  { files := fun p => if p = "/a" then some (fun _ _ => fp.zero) else none,
    opened := [], locked := [],
    open_fault := fun p => decide (p = "/d"),
    create_fault := fun p => decide (p = "/c"), trace := [] }

/-- The value of `*res` that one iteration of the loop of `winnow_classify` compares with
`max`, lines 129 to 136; `none` when the iteration is left by `continue`. -/
def classify_res (input : List token_node_t) (s : classify_state) (st : statfile) :
    Option fp :=
  match (classify_acquire s.pool st.path).1 with
  | none => none
  | some file =>
    let d := g_tree_foreach input classify_callback
      ((classify_acquire s.pool st.path).2, { s.data with file := some file })
    some (if d.2.count ≠ 0 then fp.div64 d.2.sum (fp.of_int d.2.count) else fp.zero)

/-- The config with the single class A. -/
def a_ctx : classifier_ctx :=
  { cfg := { statfiles := [⟨"A", "/a", 1024⟩], metric := "default" } }

/-- The path or handle a call to the pool is about. -/
def Op.path : Op → String
  | Op.is_open p => p
  | Op.open_file p => p
  | Op.create p _ => p
  | Op.get_block f _ _ _ => f
  | Op.set_block f _ _ _ _ => f
  | Op.lock_file f => f
  | Op.unlock_file f => f

/-- The calls of a learning pass over the tokens of `input`, in order: for each token a
`get_block` and then a `set_block` of the value paired with the token. -/
def learn_pass (file : String) (now : Nat) (input : List token_node_t) (vals : List fp) :
    List Op :=
  (input.zip vals).flatMap (fun nv =>
    [Op.get_block file nv.1.h1 nv.1.h2 now, Op.set_block file nv.1.h1 nv.1.h2 now nv.2])

/-- A document of two tokens. -/
def two_tokens : List token_node_t := [⟨1, 2⟩, ⟨3, 4⟩]

/-- Three classes of which the last two carry the same symbol B. -/
def dup_ctx : classifier_ctx :=
  { cfg := { statfiles := [⟨"A", "/a", 1024⟩, ⟨"B", "/b", 1024⟩, ⟨"B", "/c", 1024⟩],
             metric := "default" } }

/-- The `double` sum of the effective token weights of the document over the classes `cs`,
class after class from 0.0, divided by the number of these classes times the number of
tokens. -/
def cumulative_score (pool : statfile_pool_t) (input : List token_node_t)
    (cs : List statfile) : fp :=
  fp.div64 (cs.foldl (fun acc c => class_add pool c.path input acc) fp.zero)
    (fp.of_int ((cs.length * input.length : Nat) : Int))

/-- A pool with a store for each of the classes A, B, C, holding the weight `2 ^ 60`, `1`
and `2 ^ 61` respectively for every token. -/
def big_pool : statfile_pool_t :=
  { files := fun p =>
      if p = "/a" then some (fun _ _ => fp.fin false 1 60)
      else if p = "/b" then some (fun _ _ => fp.fin false 1 0)
      else if p = "/c" then some (fun _ _ => fp.fin false 1 61)
      else none,
    opened := [], locked := [], open_fault := fun _ => false,
    create_fault := fun _ => false, trace := [] }

/-! ## Lemmas on floating-point values -/

theorem ilog2_aux_spec : ∀ (fuel n : Nat), n ≤ fuel → 1 ≤ n →
    2 ^ ilog2_aux fuel n ≤ n ∧ n < 2 ^ (ilog2_aux fuel n + 1) := by
  intro fuel
  induction fuel with
  | zero => intro n h1 h2; omega
  | succ fuel ih =>
    intro n h1 h2
    unfold ilog2_aux
    by_cases hn : n < 2
    · rw [if_pos hn]
      have : n = 1 := by omega
      subst this; simp
    · rw [if_neg hn]
      obtain ⟨a1, a2⟩ := ih (n / 2) (by omega) (by omega)
      constructor
      · rw [pow_succ]; omega
      · rw [pow_succ]; omega

theorem ilog2_spec (n : Nat) (h : 1 ≤ n) : 2 ^ ilog2 n ≤ n ∧ n < 2 ^ (ilog2 n + 1) :=
  ilog2_aux_spec n n (le_refl n) h

theorem ilog2_unique (n j : Nat) (h1 : 2 ^ j ≤ n) (h2 : n < 2 ^ (j + 1)) : ilog2 n = j := by
  have hn : 1 ≤ n := le_trans Nat.one_le_two_pow h1
  obtain ⟨a1, a2⟩ := ilog2_spec n hn
  have b1 : j < ilog2 n + 1 := (Nat.pow_lt_pow_iff_right (by norm_num : 1 < 2)).1
    (lt_of_le_of_lt h1 a2)
  have b2 : ilog2 n < j + 1 := (Nat.pow_lt_pow_iff_right (by norm_num : 1 < 2)).1
    (lt_of_le_of_lt a1 h2)
  omega

theorem ilog2_two_pow (j : Nat) : ilog2 (2 ^ j) = j :=
  ilog2_unique (2 ^ j) j (le_refl _) (Nat.pow_lt_pow_right (by norm_num) (by omega))

theorem ilog2_lt (n j : Nat) (hn : 1 ≤ n) (h : n < 2 ^ j) : ilog2 n < j := by
  obtain ⟨a1, -⟩ := ilog2_spec n hn
  exact (Nat.pow_lt_pow_iff_right (by norm_num : 1 < 2)).1 (lt_of_le_of_lt a1 h)

/-- The greatest power of two that divides `m`, as `canon` computes it. -/
theorem canon_gcd (m : Nat) (hm : m ≠ 0) :
    ∃ t : Nat, Nat.gcd m (2 ^ (ilog2 m + 1)) = 2 ^ t ∧
      ilog2 (Nat.gcd m (2 ^ (ilog2 m + 1))) = t ∧ m / 2 ^ t * 2 ^ t = m ∧ m / 2 ^ t ≠ 0 := by
  obtain ⟨t, -, ht⟩ := (Nat.dvd_prime_pow Nat.prime_two).1
    (Nat.gcd_dvd_right m (2 ^ (ilog2 m + 1)))
  have hd : 2 ^ t ∣ m := by rw [← ht]; exact Nat.gcd_dvd_left _ _
  refine ⟨t, ht, by rw [ht, ilog2_two_pow], Nat.div_mul_cancel hd, ?_⟩
  intro h0
  have := Nat.div_mul_cancel hd
  rw [h0] at this
  exact hm (by omega)

/-- The value `canon` returns, for a mantissa that is not 0. -/
theorem canon_eq (neg : Bool) (m : Nat) (e : Int) (hm : m ≠ 0) :
    ∃ t : Nat, fp.canon neg m e = fp.fin neg (m / 2 ^ t) (e + (t : Int)) ∧
      m / 2 ^ t * 2 ^ t = m ∧ m / 2 ^ t ≠ 0 := by
  obtain ⟨t, h1, h2, h3, h4⟩ := canon_gcd m hm
  refine ⟨t, ?_, h3, h4⟩
  unfold fp.canon
  rw [if_neg hm, h2, h1]

theorem canon_value (neg : Bool) (m : Nat) (e : Int) :
    (fp.canon neg m e).value = (fp.fin neg m e).value := by
  by_cases hm : m = 0
  · subst hm; simp [fp.canon, fp.value]
  · obtain ⟨t, h1, h2, -⟩ := canon_eq neg m e hm
    rw [h1]
    simp only [fp.value]
    have h3 : ((m / 2 ^ t : Nat) : ℚ) * (2 : ℚ) ^ (t : Int) = (m : ℚ) := by
      rw [zpow_natCast]; exact_mod_cast h2
    rw [zpow_add₀ (by norm_num : (2 : ℚ) ≠ 0)]
    calc (if neg = true then (-1 : ℚ) else 1) * ((m / 2 ^ t : Nat) : ℚ) *
          ((2 : ℚ) ^ e * (2 : ℚ) ^ (t : Int))
        = (if neg = true then (-1 : ℚ) else 1) *
            (((m / 2 ^ t : Nat) : ℚ) * (2 : ℚ) ^ (t : Int)) * (2 : ℚ) ^ e := by ring
      _ = (if neg = true then (-1 : ℚ) else 1) * (m : ℚ) * (2 : ℚ) ^ e := by rw [h3]

/-- The result of `canon` is finite, with the sign given and the same value. -/
theorem canon_spec (neg : Bool) (m : Nat) (e : Int) :
    ∃ (m1 : Nat) (e1 : Int), fp.canon neg m e = fp.fin neg m1 e1 ∧
      (m1 : ℚ) * (2 : ℚ) ^ e1 = (m : ℚ) * (2 : ℚ) ^ e ∧ (m ≠ 0 → m1 ≠ 0) := by
  by_cases hm : m = 0
  · subst hm
    exact ⟨0, 0, by simp [fp.canon], by simp, fun h => absurd rfl h⟩
  · obtain ⟨t, h1, h2, h3⟩ := canon_eq neg m e hm
    refine ⟨m / 2 ^ t, e + t, h1, ?_, fun _ => h3⟩
    have h4 : ((m / 2 ^ t : Nat) : ℚ) * (2 : ℚ) ^ (t : Int) = (m : ℚ) := by
      rw [zpow_natCast]; exact_mod_cast h2
    rw [zpow_add₀ (by norm_num : (2 : ℚ) ≠ 0), ← h4]
    ring

/-- The scaled integers that `lt` and `add64` compute have the value of the number. -/
theorem scaled_value (neg : Bool) (m : Nat) (e e0 : Int) (h : e0 ≤ e) :
    ((fp.scaled neg m (e - e0) : Int) : ℚ) * (2 : ℚ) ^ e0 = (fp.fin neg m e).value := by
  simp only [fp.scaled, fp.value]
  have h1 : (((e - e0).toNat : Nat) : Int) = e - e0 := Int.toNat_of_nonneg (by omega)
  have h2 : (2 : ℚ) ^ (e - e0).toNat * (2 : ℚ) ^ e0 = (2 : ℚ) ^ e := by
    rw [← zpow_natCast, h1, ← zpow_add₀ (by norm_num : (2 : ℚ) ≠ 0)]
    congr 1; omega
  push_cast
  cases neg <;> simp <;> rw [← h2] <;> ring

theorem fp.lt_iff (n1 n2 : Bool) (m1 m2 : Nat) (e1 e2 : Int) :
    fp.lt (fp.fin n1 m1 e1) (fp.fin n2 m2 e2) = true ↔
      (fp.fin n1 m1 e1).value < (fp.fin n2 m2 e2).value := by
  rw [← scaled_value n1 m1 e1 (min e1 e2) (min_le_left _ _),
    ← scaled_value n2 m2 e2 (min e1 e2) (min_le_right _ _)]
  have hpos : (0 : ℚ) < (2 : ℚ) ^ (min e1 e2) := by positivity
  simp only [fp.lt, decide_eq_true_eq]
  rw [mul_lt_mul_right hpos]
  exact Int.cast_lt.symm

/-- Rounding is monotone at the numbers of the format: a positive number that is at least
`Y * 2 ^ F`, a number of the format, is rounded to a value that is at least `Y * 2 ^ F`,
or to plus infinity. -/
theorem round_ge (p : Nat) (qmin emax : Int) (m : Nat) (e : Int) (Y : Nat) (F : Int)
    (hp : 1 ≤ p) (hm : m ≠ 0) (hY : Y < 2 ^ p) (hF : qmin ≤ F)
    (h : (Y : ℚ) * (2 : ℚ) ^ F ≤ (m : ℚ) * (2 : ℚ) ^ e) :
    fp.round p qmin emax false m e = fp.inf false ∨
      ∃ (m1 : Nat) (e1 : Int), fp.round p qmin emax false m e = fp.fin false m1 e1 ∧
        (Y : ℚ) * (2 : ℚ) ^ F ≤ (m1 : ℚ) * (2 : ℚ) ^ e1 := by
  have h2 : (2 : ℚ) ≠ 0 := by norm_num
  obtain ⟨hL1, hL2⟩ := ilog2_spec m (Nat.one_le_iff_ne_zero.2 hm)
  unfold fp.round
  rw [if_neg hm]
  simp only
  by_cases hs : max ((ilog2 m : Int) + 1 - (p : Int)) (qmin - e) ≤ 0
  · rw [if_pos hs]
    split
    · exact Or.inl rfl
    · obtain ⟨m1, e1, c1, c2, -⟩ := canon_spec false m e
      exact Or.inr ⟨m1, e1, c1, by rw [c2]; exact h⟩
  · rw [if_neg hs]
    generalize hsdef : max ((ilog2 m : Int) + 1 - (p : Int)) (qmin - e) = s at hs ⊢
    have hspos : 0 < s := by omega
    have hk : ((s.toNat : Nat) : Int) = s := Int.toNat_of_nonneg (by omega)
    generalize hkdef : s.toNat = k at hk ⊢
    generalize hq1 : (if 2 ^ (k - 1) < m % 2 ^ k ∨ m % 2 ^ k = 2 ^ (k - 1) ∧
      m / 2 ^ k % 2 = 1 then m / 2 ^ k + 1 else m / 2 ^ k) = q1
    have hq : m / 2 ^ k ≤ q1 := by
      rw [← hq1]; split <;> omega
    by_cases hov : (ilog2 q1 : Int) + (e + s) > emax
    · rw [if_pos hov]; exact Or.inl rfl
    · rw [if_neg hov]
      right
      obtain ⟨m1, e1, c1, c2, -⟩ := canon_spec false q1 (e + s)
      refine ⟨m1, e1, c1, ?_⟩
      rw [c2]
      have hpow : (0 : ℚ) < (2 : ℚ) ^ (e + s) := by positivity
      have hqq : ((m / 2 ^ k : Nat) : ℚ) * (2 : ℚ) ^ (e + s) ≤ (q1 : ℚ) * (2 : ℚ) ^ (e + s) := by
        apply mul_le_mul_of_nonneg_right _ hpow.le
        exact_mod_cast hq
      refine le_trans ?_ hqq
      by_cases hFs : e + s ≤ F
      · -- the bound is a multiple of the unit in the last place
        have hd : (((F - e - s).toNat : Nat) : Int) = F - e - s :=
          Int.toNat_of_nonneg (by omega)
        generalize (F - e - s).toNat = d at hd
        have hF2 : F = e + s + (d : Int) := by omega
        have hnat : Y * 2 ^ d * 2 ^ k ≤ m := by
          have h3 : (Y : ℚ) * (2 : ℚ) ^ (d : Int) * (2 : ℚ) ^ (k : Int) * (2 : ℚ) ^ e ≤
              (m : ℚ) * (2 : ℚ) ^ e := by
            have : (Y : ℚ) * (2 : ℚ) ^ (d : Int) * (2 : ℚ) ^ (k : Int) * (2 : ℚ) ^ e =
                (Y : ℚ) * (2 : ℚ) ^ F := by
              rw [hF2, hk, zpow_add₀ h2, zpow_add₀ h2]; ring
            rw [this]; exact h
          have h4 := le_of_mul_le_mul_right h3 (by positivity : (0 : ℚ) < (2 : ℚ) ^ e)
          rw [zpow_natCast, zpow_natCast] at h4
          exact_mod_cast h4
        have hle : Y * 2 ^ d ≤ m / 2 ^ k :=
          (Nat.le_div_iff_mul_le (by positivity)).2 hnat
        have : (Y : ℚ) * (2 : ℚ) ^ F = ((Y * 2 ^ d : Nat) : ℚ) * (2 : ℚ) ^ (e + s) := by
          rw [hF2, zpow_add₀ h2 (e + s), zpow_natCast]; push_cast; ring
        rw [this]
        apply mul_le_mul_of_nonneg_right _ hpow.le
        exact_mod_cast hle
      · -- the bound is below the least number with this unit in the last place
        have hs1 : s = (ilog2 m : Int) + 1 - (p : Int) := by
          rw [← hsdef]
          apply max_eq_left
          have : qmin - e < s := by omega
          rw [← hsdef] at this
          by_contra hc
          rw [max_eq_right (by omega)] at this
          omega
        have hkL : k + p = ilog2 m + 1 := by omega
        have hqge : 2 ^ (p - 1) ≤ m / 2 ^ k := by
          apply (Nat.le_div_iff_mul_le (by positivity)).2
          rw [← pow_add]
          have : p - 1 + k = ilog2 m := by omega
          rw [this]; exact hL1
        have hY2 : (Y : ℚ) ≤ (2 : ℚ) ^ (p : Int) := by
          rw [zpow_natCast]; exact_mod_cast hY.le
        have hFle : (2 : ℚ) ^ F ≤ (2 : ℚ) ^ (e + s - 1) :=
          zpow_le_zpow_right₀ (by norm_num) (by omega)
        calc (Y : ℚ) * (2 : ℚ) ^ F ≤ (2 : ℚ) ^ (p : Int) * (2 : ℚ) ^ (e + s - 1) :=
              mul_le_mul hY2 hFle (by positivity) (by positivity)
          _ = ((2 ^ (p - 1) : Nat) : ℚ) * (2 : ℚ) ^ (e + s) := by
              push_cast
              rw [← zpow_natCast, ← zpow_add₀ h2, ← zpow_add₀ h2]
              congr 1
              have : ((p - 1 : Nat) : Int) = (p : Int) - 1 := by omega
              rw [this]; ring
          _ ≤ ((m / 2 ^ k : Nat) : ℚ) * (2 : ℚ) ^ (e + s) := by
              apply mul_le_mul_of_nonneg_right _ hpow.le
              exact_mod_cast hqge

set_option maxRecDepth 100000 in
/-- The operations on some well-known values: `0.1`, `0.1f`, `0.1 + 0.2`, `1.0 / 3`,
`0.1f * 0.1f`, a tie that rounds to even, and the underflow and overflow of a `float`. -/
theorem fp_examples :
    fp.literal 1 10 = fp.fin false 3602879701896397 (-55) ∧
      fp.to_float (fp.literal 1 10) = fp.fin false 13421773 (-27) ∧
      fp.add64 (fp.literal 1 10) (fp.literal 2 10) = fp.fin false 1351079888211149 (-52) ∧
      fp.div64 (fp.of_int 1) (fp.of_int 3) = fp.fin false 6004799503160661 (-54) ∧
      fp.mul32 (fp.to_float (fp.literal 1 10)) (fp.to_float (fp.literal 1 10)) =
        fp.fin false 10737419 (-30) ∧
      fp.to_float (fp.of_int 16777217) = fp.fin false 1 24 ∧
      fp.to_float (fp.of_int 16777219) = fp.fin false 4194305 2 ∧
      fp.to_float (fp.literal 1 (10 ^ 45)) = fp.fin false 1 (-149) ∧
      fp.to_float (fp.literal 1 (10 ^ 46)) = fp.fin false 0 0 ∧
      fp.to_float (fp.of_int (10 ^ 39)) = fp.inf false ∧
      fp.div64 (fp.fin false 3 (-1074)) (fp.of_int 2) = fp.fin false 1 (-1073) ∧
      fp.div64 (fp.fin false 1 (-1074)) (fp.of_int 2) = fp.fin false 0 0 := by
  decide!

/-! ## Lemmas -/

theorem weight_log (pool : statfile_pool_t) (op : Op) (path : String) (h1 h2 : Nat) :
    (pool.log op).weight path h1 h2 = pool.weight path h1 h2 := rfl

theorem g_tree_foreach_cons (n : token_node_t) (input : List token_node_t)
    (f : token_node_t → statfile_pool_t × winnow_callback_data →
      statfile_pool_t × winnow_callback_data)
    (s : statfile_pool_t × winnow_callback_data) :
    g_tree_foreach (n :: input) f s = g_tree_foreach input f (f n s) := rfl

theorem class_add_of_files (pool pool0 : statfile_pool_t) (h : pool.files = pool0.files)
    (path : String) (input : List token_node_t) (acc : fp) :
    class_add pool path input acc = class_add pool0 path input acc := by
  simp [class_add, statfile_pool_t.weight, h]

theorem class_add_cons (pool : statfile_pool_t) (path : String) (n : token_node_t)
    (input : List token_node_t) (acc : fp) :
    class_add pool path (n :: input) acc =
      class_add pool path input (fp.add64 acc (effective (pool.weight path n.h1 n.h2))) := rfl

theorem count_add_succ (c : Int) (m : Nat) :
    count_add c (m + 1) = count_add (int_incr c) m := rfl

/-- Without wrap-around the counter after `m` increments is `c + m`. -/
theorem count_add_eq (m : Nat) : ∀ c : Int, 0 ≤ c → c + (m : Int) < 2147483648 →
    count_add c m = c + (m : Int) := by
  induction m with
  | zero => intro c _ _; simp [count_add]
  | succ m ih =>
    intro c h0 h1
    rw [count_add_succ]
    have hi : int_incr c = c + 1 := by
      unfold int_incr; push_cast at h1; omega
    rw [hi, ih (c + 1) (by omega) (by push_cast at h1 ⊢; omega)]
    push_cast; ring

/-- The traversal with `classify_callback` only appends `get_block` calls to the trace,
adds the effective weights to `sum` and counts the tokens in `count`. -/
theorem foreach_classify (input : List token_node_t) (file : String) :
    ∀ (pool : statfile_pool_t) (cd : winnow_callback_data), cd.file = some file →
      (g_tree_foreach input classify_callback (pool, cd)).1 =
          { pool with trace := pool.trace ++
              input.map (fun n => Op.get_block file n.h1 n.h2 cd.now) } ∧
        (g_tree_foreach input classify_callback (pool, cd)).2.file = some file ∧
        (g_tree_foreach input classify_callback (pool, cd)).2.now = cd.now ∧
        (g_tree_foreach input classify_callback (pool, cd)).2.sum =
          class_add pool file input cd.sum ∧
        (g_tree_foreach input classify_callback (pool, cd)).2.count =
          count_add cd.count input.length := by
  induction input with
  | nil => intro pool cd hf; simp [g_tree_foreach, class_add, count_add, hf]
  | cons n input ih =>
    intro pool cd hf
    rw [g_tree_foreach_cons]
    have hsum : ∀ acc, class_add (pool.log (Op.get_block file n.h1 n.h2 cd.now)) file input acc =
        class_add pool file input acc := fun acc => class_add_of_files _ _ rfl _ _ _
    by_cases hv : fp.lt (pool.weight file n.h1 n.h2) NOT_FOUND = true
    · have hstep : classify_callback n (pool, cd) =
          (pool.log (Op.get_block file n.h1 n.h2 cd.now),
            { cd with sum := fp.add64 cd.sum (fp.of_int 1), count := int_incr cd.count }) := by
        simp [classify_callback, hf, statfile_pool_get_block, hv]
      rw [hstep]
      obtain ⟨h1, h2, h3, h4, h5⟩ := ih (pool.log (Op.get_block file n.h1 n.h2 cd.now))
        { cd with sum := fp.add64 cd.sum (fp.of_int 1), count := int_incr cd.count } hf
      refine ⟨?_, h2, h3, ?_, ?_⟩
      · rw [h1]; simp [statfile_pool_t.log]
      · rw [h4, hsum, class_add_cons]
        simp only [effective, if_pos hv]
      · rw [h5]; rfl
    · have hstep : classify_callback n (pool, cd) =
          (pool.log (Op.get_block file n.h1 n.h2 cd.now),
            { cd with sum := fp.add64 cd.sum (pool.weight file n.h1 n.h2),
                      in_class := int_incr cd.in_class, count := int_incr cd.count }) := by
        simp [classify_callback, hf, statfile_pool_get_block, hv]
      rw [hstep]
      obtain ⟨h1, h2, h3, h4, h5⟩ := ih (pool.log (Op.get_block file n.h1 n.h2 cd.now))
        { cd with sum := fp.add64 cd.sum (pool.weight file n.h1 n.h2),
                  in_class := int_incr cd.in_class, count := int_incr cd.count } hf
      refine ⟨?_, h2, h3, ?_, ?_⟩
      · rw [h1]; simp [statfile_pool_t.log]
      · rw [h4, hsum, class_add_cons]
        simp only [effective, if_neg hv]
      · rw [h5]; rfl

theorem reads_only_refl (pool : statfile_pool_t) (h : ∀ p, p ∈ pool.opened → usable pool p = true) :
    reads_only pool pool :=
  { files := rfl, open_fault := rfl, create_fault := rfl, locked := rfl,
    opened_mono := fun _ hp => hp, opened_usable := h,
    trace := ⟨[], by simp⟩ }

/-- Recording a reading call keeps `reads_only`. -/
theorem reads_only_log (pool0 pool : statfile_pool_t) (op : Op) (hop : op.reads = true)
    (h : reads_only pool0 pool) : reads_only pool0 (pool.log op) := by
  obtain ⟨ops, hops, hall⟩ := h.trace
  exact
    { files := h.files, open_fault := h.open_fault, create_fault := h.create_fault,
      locked := h.locked, opened_mono := h.opened_mono, opened_usable := h.opened_usable,
      trace := ⟨ops ++ [op], by simp [statfile_pool_t.log, hops], by
        intro o ho
        rcases List.mem_append.1 ho with ho | ho
        · exact hall o ho
        · simp at ho; subst ho; exact hop⟩ }

/-- The stores `usable` looks at are the same in a pool related by `reads_only`. -/
theorem usable_of_reads_only (pool0 pool : statfile_pool_t) (h : reads_only pool0 pool)
    (path : String) : usable pool path = usable pool0 path := by
  by_cases hp : path ∈ pool.opened
  · rw [h.opened_usable path hp]; simp [usable, hp]
  · have hp0 : path ∉ pool0.opened := fun h0 => hp (h.opened_mono path h0)
    simp [usable, hp, hp0, h.files, h.open_fault]

/-- The traversal with `classify_callback` keeps `reads_only`. -/
theorem reads_only_foreach (pool0 pool : statfile_pool_t) (input : List token_node_t)
    (file : String) (cd : winnow_callback_data) (hf : cd.file = some file)
    (h : reads_only pool0 pool) :
    reads_only pool0 (g_tree_foreach input classify_callback (pool, cd)).1 := by
  rw [(foreach_classify input file pool cd hf).1]
  obtain ⟨ops, hops, hall⟩ := h.trace
  exact
    { files := h.files, open_fault := h.open_fault, create_fault := h.create_fault,
      locked := h.locked, opened_mono := h.opened_mono, opened_usable := h.opened_usable,
      trace := ⟨ops ++ input.map (fun n => Op.get_block file n.h1 n.h2 cd.now), by
        simp [hops], by
        intro o ho
        rcases List.mem_append.1 ho with ho | ho
        · exact hall o ho
        · obtain ⟨n, _, rfl⟩ := List.mem_map.1 ho; rfl⟩ }

theorem classify_acquire_spec (pool0 pool : statfile_pool_t) (path : String)
    (h : reads_only pool0 pool) :
    reads_only pool0 (classify_acquire pool path).2 ∧
      (classify_acquire pool path).1 = if usable pool0 path then some path else none := by
  rw [← usable_of_reads_only pool0 pool h path]
  have hlog := reads_only_log pool0 pool (Op.is_open path) rfl h
  by_cases hp : path ∈ pool.opened
  · simp [classify_acquire, statfile_pool_is_open, hp, usable, hlog]
  · have hlog2 := reads_only_log pool0 _ (Op.open_file path) rfl hlog
    by_cases ho : ((pool.files path).isSome && !pool.open_fault path) = true
    · have hu : usable pool0 path = true := by
        rw [← usable_of_reads_only pool0 pool h path]; simp [usable, ho]
      have : (classify_acquire pool path) =
          (some path, { (pool.log (Op.is_open path)).log (Op.open_file path) with
            opened := path :: pool.opened }) := by
        simp [classify_acquire, statfile_pool_is_open, hp, statfile_pool_open]
        simp [statfile_pool_t.log]
        simpa using ho
      rw [this]
      refine ⟨?_, by simp [usable, ho]⟩
      exact
        { files := hlog2.files, open_fault := hlog2.open_fault,
          create_fault := hlog2.create_fault, locked := hlog2.locked,
          opened_mono := fun p hp0 => List.mem_cons_of_mem _ (h.opened_mono p hp0),
          opened_usable := by
            intro p hpm
            rcases List.mem_cons.1 hpm with rfl | hpm
            · exact hu
            · exact h.opened_usable p hpm
          trace := hlog2.trace }
    · have : (classify_acquire pool path) =
          (none, (pool.log (Op.is_open path)).log (Op.open_file path)) := by
        simp [classify_acquire, statfile_pool_is_open, hp, statfile_pool_open]
        simp [statfile_pool_t.log]
        simpa using ho
      rw [this]
      refine ⟨hlog2, ?_⟩
      have hno : ¬ ((pool.files path).isSome = true ∧ pool.open_fault path = false) := by
        simpa using ho
      simp [usable, hp, hno]

theorem classify_step_eq (input : List token_node_t) (s : classify_state) (st : statfile) :
    classify_step input s st =
      match (classify_acquire s.pool st.path).1 with
      | none => { s with pool := (classify_acquire s.pool st.path).2,
                         data := { s.data with file := none } }
      | some file =>
        let d := g_tree_foreach input classify_callback
          ((classify_acquire s.pool st.path).2, { s.data with file := some file })
        let res : fp :=
          if d.2.count ≠ 0 then fp.div64 d.2.sum (fp.of_int d.2.count) else fp.zero
        if fp.lt s.max res then { pool := d.1, data := d.2, max := res, sel := some st }
        else { pool := d.1, data := d.2, max := s.max, sel := s.sel } := by
  unfold classify_step classify_acquire
  cases h : (statfile_pool_is_open s.pool st.path).1 <;> simp [h]

/-- One iteration of the loop of `winnow_classify` only reads the pool, and computes on
its accumulators what `score_step` computes. -/
theorem classify_step_spec (pool0 : statfile_pool_t) (input : List token_node_t)
    (s : classify_state) (st : statfile) (h : reads_only pool0 s.pool) :
    reads_only pool0 (classify_step input s st).pool ∧
      (classify_step input s st).scores = score_step pool0 input s.scores st := by
  obtain ⟨hacq, hfile⟩ := classify_acquire_spec pool0 s.pool st.path h
  rw [classify_step_eq]
  by_cases hu : usable pool0 st.path = true
  · rw [if_pos hu] at hfile
    simp only [hfile]
    obtain ⟨-, -, -, hsum, hcount⟩ := foreach_classify input st.path
      (classify_acquire s.pool st.path).2 { s.data with file := some st.path } rfl
    have hro := reads_only_foreach pool0 (classify_acquire s.pool st.path).2 input st.path
      { s.data with file := some st.path } rfl hacq
    rw [class_add_of_files _ pool0 hacq.files] at hsum
    simp only at hsum hcount hro
    generalize g_tree_foreach input classify_callback
      ((classify_acquire s.pool st.path).2,
        ({ file := some st.path, sum := s.data.sum, count := s.data.count,
           in_class := s.data.in_class, now := s.data.now } : winnow_callback_data)) = d
      at hsum hcount hro ⊢
    simp only [score_step, hu, if_true, classify_state.scores, ← hsum, ← hcount, score_res]
    by_cases hres : fp.lt s.max
        (if d.2.count ≠ 0 then fp.div64 d.2.sum (fp.of_int d.2.count) else fp.zero) = true
    · rw [if_pos hres, if_pos hres]; exact ⟨hro, rfl⟩
    · rw [if_neg hres, if_neg hres]; exact ⟨hro, rfl⟩
  · rw [if_neg hu] at hfile
    simp only [hfile]
    refine ⟨hacq, ?_⟩
    simp [score_step, hu, classify_state.scores]

/-- The whole loop of `winnow_classify` only reads the pool, and computes on its
accumulators what the iteration of `score_step` computes. -/
theorem classify_loop_spec (pool0 : statfile_pool_t) (input : List token_node_t)
    (sts : List statfile) :
    ∀ s : classify_state, reads_only pool0 s.pool →
      reads_only pool0 (sts.foldl (classify_step input) s).pool ∧
        (sts.foldl (classify_step input) s).scores =
          sts.foldl (score_step pool0 input) s.scores := by
  induction sts with
  | nil => intro s h; exact ⟨h, rfl⟩
  | cons st sts ih =>
    intro s h
    obtain ⟨h1, h2⟩ := classify_step_spec pool0 input s st h
    obtain ⟨h3, h4⟩ := ih (classify_step input s st) h1
    simp only [List.foldl_cons]
    exact ⟨h3, by rw [h4, h2]⟩

theorem usable_of_opened (pool : statfile_pool_t) (p : String) (h : p ∈ pool.opened) :
    usable pool p = true := by
  simp [usable, h]

theorem reads_only_init (pool : statfile_pool_t) (now : Nat) :
    reads_only pool (classify_init pool now).pool :=
  reads_only_refl pool (usable_of_opened pool)

/-- The call `winnow_classify` only reads the pool, and selects and computes what the
iteration of `score_step` over the classes selects and computes. -/
theorem winnow_classify_spec (ctx : classifier_ctx) (pool : statfile_pool_t)
    (input : List token_node_t) (now : Nat) :
    reads_only pool (winnow_classify ctx pool input now).pool ∧
      (winnow_classify ctx pool input now).sel =
        (ctx.cfg.statfiles.foldl (score_step pool input) score_init).sel ∧
      (winnow_classify ctx pool input now).max =
        (ctx.cfg.statfiles.foldl (score_step pool input) score_init).max ∧
      (winnow_classify ctx pool input now).data.sum =
        (ctx.cfg.statfiles.foldl (score_step pool input) score_init).sum ∧
      (winnow_classify ctx pool input now).data.count =
        (ctx.cfg.statfiles.foldl (score_step pool input) score_init).count := by
  have h := classify_loop_spec pool input ctx.cfg.statfiles (classify_init pool now)
    (reads_only_init pool now)
  exact ⟨h.1, congrArg score_state.sel h.2, congrArg score_state.max h.2,
    congrArg score_state.sum h.2, congrArg score_state.count h.2⟩

theorem winnow_classify_inserted (ctx : classifier_ctx) (pool : statfile_pool_t)
    (input : List token_node_t) (now : Nat) :
    (winnow_classify ctx pool input now).inserted =
      (winnow_classify ctx pool input now).sel.map
        (fun st => (ctx.cfg.metric, st.symbol, 1)) := rfl

theorem lt_zero_zero : fp.lt fp.zero fp.zero = false := by decide

/-- On an empty document the accumulators never move: no class is selected. -/
theorem score_fold_empty (pool : statfile_pool_t) (sts : List statfile) :
    ∀ s : score_state, s.count = 0 → s.max = fp.zero → s.sel = none →
      (sts.foldl (score_step pool []) s).sel = none ∧
        (sts.foldl (score_step pool []) s).max = fp.zero := by
  induction sts with
  | nil => intro s _ hm hs; exact ⟨hs, hm⟩
  | cons st sts ih =>
    intro s hc hm hs
    simp only [List.foldl_cons]
    have hstep : (score_step pool [] s st).count = 0 ∧ (score_step pool [] s st).max = fp.zero ∧
        (score_step pool [] s st).sel = none := by
      unfold score_step
      by_cases hu : usable pool st.path = true
      · have hres : score_res (class_add pool st.path [] s.sum) (count_add s.count 0) =
            fp.zero := by
          simp [score_res, count_add, hc]
        have hcnt : count_add s.count 0 = 0 := by simp [count_add, hc]
        rw [if_pos hu]
        simp only [List.length_nil, hres, hm, lt_zero_zero, hcnt]
        exact ⟨rfl, rfl, hs⟩
      · rw [if_neg hu]; exact ⟨hc, hm, hs⟩
    exact ih _ hstep.1 hstep.2.1 hstep.2.2

theorem weight_set_block (pool : statfile_pool_t) (file : String) (a b now : Nat) (v : fp)
    (hf : (pool.files file).isSome = true) (h1 h2 : Nat) :
    (statfile_pool_set_block pool file a b now v).weight file h1 h2 =
      if h1 = a ∧ h2 = b then v else pool.weight file h1 h2 := by
  obtain ⟨blocks, hb⟩ := Option.isSome_iff_exists.1 hf
  simp [statfile_pool_set_block, statfile_pool_t.weight, statfile_pool_t.log, hb]

theorem files_set_block_ne (pool : statfile_pool_t) (file : String) (a b now : Nat) (v : fp)
    (p : String) (hp : p ≠ file) :
    (statfile_pool_set_block pool file a b now v).files p = pool.files p := by
  simp [statfile_pool_set_block, statfile_pool_t.log, hp]

theorem files_set_block_some (pool : statfile_pool_t) (file : String) (a b now : Nat) (v : fp)
    (hf : (pool.files file).isSome = true) :
    ((statfile_pool_set_block pool file a b now v).files file).isSome = true := by
  obtain ⟨blocks, hb⟩ := Option.isSome_iff_exists.1 hf
  simp [statfile_pool_set_block, statfile_pool_t.log, hb]

/-- One call of `learn_callback` with an open file: a `get_block`, then a `set_block` of
the updated value. -/
theorem learn_callback_eq (n : token_node_t) (pool : statfile_pool_t)
    (cd : winnow_callback_data) (file : String) (hf : cd.file = some file) :
    learn_callback n (pool, cd) =
      (statfile_pool_set_block (pool.log (Op.get_block file n.h1 n.h2 cd.now)) file n.h1 n.h2
          cd.now (learn_update (learn_factor cd.in_class) (pool.weight file n.h1 n.h2)),
        { cd with count := int_incr cd.count }) := by
  simp only [learn_callback, hf, statfile_pool_get_block, learn_update, learn_factor]
  split <;> rfl

/-- The traversal with `learn_callback`: every block of `file` is updated once for each
occurrence of its token in the input; nothing else changes but the trace, which gets
`get_block` and `set_block` calls on `file`. -/
theorem foreach_learn (input : List token_node_t) (file : String) (c : fp) :
    ∀ (pool : statfile_pool_t) (cd : winnow_callback_data), cd.file = some file →
      (pool.files file).isSome = true → learn_factor cd.in_class = c →
      (∀ p, p ≠ file →
        (g_tree_foreach input learn_callback (pool, cd)).1.files p = pool.files p) ∧
      ((g_tree_foreach input learn_callback (pool, cd)).1.files file).isSome = true ∧
      (∀ h1 h2, (g_tree_foreach input learn_callback (pool, cd)).1.weight file h1 h2 =
        (learn_update c)^[input.count ⟨h1, h2⟩] (pool.weight file h1 h2)) ∧
      (g_tree_foreach input learn_callback (pool, cd)).1.opened = pool.opened ∧
      (g_tree_foreach input learn_callback (pool, cd)).1.locked = pool.locked ∧
      (g_tree_foreach input learn_callback (pool, cd)).1.open_fault = pool.open_fault ∧
      (g_tree_foreach input learn_callback (pool, cd)).1.create_fault = pool.create_fault ∧
      ∃ ops : List Op,
        (g_tree_foreach input learn_callback (pool, cd)).1.trace = pool.trace ++ ops ∧
          ∀ op ∈ ops, op.on_block file = true := by
  induction input with
  | nil =>
    intro pool cd _ hs _
    refine ⟨fun _ _ => rfl, hs, fun _ _ => rfl, rfl, rfl, rfl, rfl, [], by simp [g_tree_foreach], ?_⟩
    intro op hop; cases hop
  | cons n input ih =>
    intro pool cd hf hs hc
    rw [g_tree_foreach_cons, learn_callback_eq n pool cd file hf, hc]
    have hs1 : ((pool.log (Op.get_block file n.h1 n.h2 cd.now)).files file).isSome = true := hs
    obtain ⟨i1, i2, i3, i4, i5, i6, i7, ops, i8, i9⟩ :=
      ih (statfile_pool_set_block (pool.log (Op.get_block file n.h1 n.h2 cd.now)) file n.h1 n.h2
          cd.now (learn_update c (pool.weight file n.h1 n.h2)))
        { cd with count := int_incr cd.count } hf (files_set_block_some _ _ _ _ _ _ hs1) hc
    refine ⟨?_, i2, ?_, ?_, ?_, ?_, ?_, ?_⟩
    · intro p hp
      rw [i1 p hp, files_set_block_ne _ _ _ _ _ _ p hp]; rfl
    · intro h1 h2
      rw [i3 h1 h2, weight_set_block _ _ _ _ _ _ hs1, weight_log]
      by_cases hn : n = ⟨h1, h2⟩
      · subst hn
        simp [List.count_cons_self, Function.iterate_succ_apply]
      · have hne : ¬ (h1 = n.h1 ∧ h2 = n.h2) := by
          rintro ⟨rfl, rfl⟩; exact hn rfl
        rw [if_neg hne, List.count_cons_of_ne (Ne.symm hn)]
    · rw [i4]; rfl
    · rw [i5]; rfl
    · rw [i6]; rfl
    · rw [i7]; rfl
    · refine ⟨Op.get_block file n.h1 n.h2 cd.now ::
        Op.set_block file n.h1 n.h2 cd.now (learn_update c (pool.weight file n.h1 n.h2)) :: ops,
        ?_, ?_⟩
      · rw [i8]; simp [statfile_pool_set_block, statfile_pool_t.log]
      · intro op hop
        rcases List.mem_cons.1 hop with rfl | hop
        · simp [Op.on_block]
        rcases List.mem_cons.1 hop with rfl | hop
        · simp [Op.on_block]
        · exact i9 op hop

theorem learn_loop_eq (block_size : Nat) (symbol : String) (sts : List statfile)
    (pool : statfile_pool_t) :
    learn_loop block_size symbol sts pool =
      match learn_class symbol sts with
      | none => (pool, some none)
      | some st => learn_acquire block_size st pool := by
  induction sts with
  | nil => rfl
  | cons st sts ih =>
    by_cases h : symbol = st.symbol
    · simp [learn_loop, learn_class, h]
    · simp [learn_loop, learn_class, h, List.find?_cons]
      rw [ih]; rfl

theorem weight_of_files (pool pool0 : statfile_pool_t) (path : String)
    (h : pool.files path = pool0.files path) (h1 h2 : Nat) :
    pool.weight path h1 h2 = pool0.weight path h1 h2 := by
  simp [statfile_pool_t.weight, h]

/-- What `learn_acquire` does, by the state of the store at the path of the class. -/
theorem learn_acquire_spec (block_size : Nat) (st : statfile) (pool : statfile_pool_t) :
    (learn_acquire block_size st pool).1.locked = pool.locked ∧
    (learn_acquire block_size st pool).1.open_fault = pool.open_fault ∧
    (learn_acquire block_size st pool).1.create_fault = pool.create_fault ∧
    (∀ p, p ≠ st.path → (learn_acquire block_size st pool).1.files p = pool.files p) ∧
    (∀ p h1 h2, (learn_acquire block_size st pool).1.weight p h1 h2 = pool.weight p h1 h2) ∧
    ((pool.files st.path).isSome = true →
      (learn_acquire block_size st pool).1.files = pool.files) ∧
    (learn_acquire block_size st pool).1.trace = pool.trace ++
      (Op.open_file st.path ::
        if openable pool st.path then []
        else Op.create st.path (st.size / block_size) ::
          if pool.create_fault st.path then [] else [Op.open_file st.path]) ∧
    (learn_acquire block_size st pool).2 =
      (if openable pool st.path || (!pool.create_fault st.path && !pool.open_fault st.path)
        then some (some st.path) else none) ∧
    ((learn_acquire block_size st pool).2 ≠ none →
      openable (learn_acquire block_size st pool).1 st.path = true) := by
  by_cases ho : openable pool st.path = true
  · have hb : ((pool.files st.path).isSome && !pool.open_fault st.path) = true := ho
    have e : learn_acquire block_size st pool =
        ({ pool.log (Op.open_file st.path) with opened := st.path :: pool.opened },
          some (some st.path)) := by
      simp only [learn_acquire, statfile_pool_open, statfile_pool_t.log, hb, if_true]
    rw [e]
    refine ⟨rfl, rfl, rfl, fun _ _ => rfl, fun _ _ _ => rfl, fun _ => rfl, ?_, ?_, ?_⟩
    · simp [statfile_pool_t.log, ho]
    · simp [ho]
    · intro _; exact ho
  · have ho3 : openable pool st.path = false := by simpa using ho
    have hb : ((pool.files st.path).isSome && !pool.open_fault st.path) = false := ho3
    by_cases hc : pool.create_fault st.path = true
    · have e : learn_acquire block_size st pool =
          ((pool.log (Op.open_file st.path)).log (Op.create st.path (st.size / block_size)),
            none) := by
        simp [learn_acquire, statfile_pool_open, statfile_pool_create, statfile_pool_t.log,
          hb, hc]
      rw [e]
      refine ⟨rfl, rfl, rfl, fun _ _ => rfl, fun _ _ _ => rfl, fun _ => rfl, ?_, ?_, ?_⟩
      · simp [statfile_pool_t.log, ho3, hc]
      · simp [ho3, hc]
      · intro h; exact absurd rfl h
    · have hc2 : pool.create_fault st.path = false := by simpa using hc
      have hw : ∀ p h1 h2,
          ({ pool with files := fun p =>
              if p = st.path ∧ (pool.files st.path).isNone then some (fun _ _ => fp.zero)
              else pool.files p } : statfile_pool_t).weight p h1 h2 = pool.weight p h1 h2 := by
        intro p h1 h2
        by_cases hp : p = st.path ∧ (pool.files st.path).isNone = true
        · obtain ⟨rfl, hn⟩ := hp
          simp [statfile_pool_t.weight, hn, Option.isNone_iff_eq_none.1 hn]
        · simp only [statfile_pool_t.weight, if_neg hp]
      have hfl : (pool.files st.path).isSome = true →
          (fun p => if p = st.path ∧ (pool.files st.path).isNone then some (fun _ _ => fp.zero)
              else pool.files p) = pool.files := by
        intro hs; funext p
        have : (pool.files st.path).isNone = false := by
          cases h : pool.files st.path <;> simp_all
        simp [this]
      by_cases hf : pool.open_fault st.path = true
      · have e : learn_acquire block_size st pool =
            ({ pool with
                files := fun p =>
                  if p = st.path ∧ (pool.files st.path).isNone then some (fun _ _ => fp.zero)
                  else pool.files p,
                trace := pool.trace ++ [Op.open_file st.path,
                  Op.create st.path (st.size / block_size), Op.open_file st.path] },
              none) := by
          simp only [learn_acquire, statfile_pool_open, statfile_pool_t.log, hb]
          simp [statfile_pool_create, statfile_pool_t.log, hc2, hf]
        rw [e]
        refine ⟨rfl, rfl, rfl, ?_, hw, hfl, ?_, ?_, ?_⟩
        · intro p hp; simp [hp]
        · simp [ho3, hc2]
        · simp [ho3, hc2, hf]
        · intro h; exact absurd rfl h
      · have hf2 : pool.open_fault st.path = false := by simpa using hf
        have hnone : pool.files st.path = none := by
          cases h : pool.files st.path with
          | none => rfl
          | some b => simp [h, hf2] at hb
        have e : learn_acquire block_size st pool =
            ({ pool with
                files := fun p =>
                  if p = st.path ∧ (pool.files st.path).isNone then some (fun _ _ => fp.zero)
                  else pool.files p,
                opened := st.path :: pool.opened,
                trace := pool.trace ++ [Op.open_file st.path,
                  Op.create st.path (st.size / block_size), Op.open_file st.path] },
              some (some st.path)) := by
          simp [learn_acquire, statfile_pool_open, statfile_pool_create, statfile_pool_t.log,
            hc2, hf2, hnone]
        rw [e]
        refine ⟨rfl, rfl, rfl, ?_, hw, hfl, ?_, ?_, ?_⟩
        · intro p hp; simp [hp]
        · simp [ho3, hc2]
        · simp [ho3, hc2, hf2]
        · intro _; simp [openable, hnone, hf2]

theorem winnow_learn_eq (block_size : Nat) (ctx : classifier_ctx) (pool : statfile_pool_t)
    (symbol : String) (input : List token_node_t) (in_class : Int) (now : Nat) :
    winnow_learn block_size ctx pool symbol input in_class now =
      match (learn_loop block_size symbol ctx.cfg.statfiles pool).2 with
      | some (some file) =>
        statfile_pool_unlock_file
          (g_tree_foreach input learn_callback
            (statfile_pool_lock_file (learn_loop block_size symbol ctx.cfg.statfiles pool).1 file,
              { file := some file, sum := fp.zero, count := 0, in_class := in_class,
                now := now })).1 file
      | _ => (learn_loop block_size symbol ctx.cfg.statfiles pool).1 := by
  unfold winnow_learn
  rcases h : (learn_loop block_size symbol ctx.cfg.statfiles pool).2 with _ | _ | file <;>
    simp [h]

/-- The loop of `winnow_learn` leaves the matched class's handle in `data.file` only when
a class matched, and the handle is the path of that class. -/
theorem learn_loop_some (block_size : Nat) (symbol : String) (sts : List statfile)
    (pool : statfile_pool_t) (file : String)
    (h : (learn_loop block_size symbol sts pool).2 = some (some file)) :
    ∃ st, learn_class symbol sts = some st ∧ st.path = file ∧
      learn_loop block_size symbol sts pool = learn_acquire block_size st pool := by
  rw [learn_loop_eq] at h
  cases hc : learn_class symbol sts with
  | none => rw [hc] at h; simp at h
  | some st =>
    rw [hc] at h
    simp only at h
    have h8 := (learn_acquire_spec block_size st pool).2.2.2.2.2.2.2.1
    rw [h8] at h
    refine ⟨st, rfl, ?_, ?_⟩
    · split at h
      · simpa using h
      · simp at h
    · rw [learn_loop_eq, hc]

/-- A call of `winnow_learn` that acquires its store: every block of the store is updated
once for each occurrence of its token in the input, no other store changes, the lock is
released, and the store can be acquired again. -/
theorem winnow_learn_acquired (block_size : Nat) (ctx : classifier_ctx)
    (pool : statfile_pool_t) (symbol : String) (input : List token_node_t) (in_class : Int)
    (now : Nat) (file : String)
    (h : (learn_loop block_size symbol ctx.cfg.statfiles pool).2 = some (some file)) :
    (∀ h1 h2, (winnow_learn block_size ctx pool symbol input in_class now).weight file h1 h2 =
      (learn_update (learn_factor in_class))^[input.count ⟨h1, h2⟩]
        (pool.weight file h1 h2)) ∧
    (∀ p, p ≠ file →
      (winnow_learn block_size ctx pool symbol input in_class now).files p = pool.files p) ∧
    (winnow_learn block_size ctx pool symbol input in_class now).locked =
      (file :: pool.locked).erase file ∧
    (learn_loop block_size symbol ctx.cfg.statfiles
      (winnow_learn block_size ctx pool symbol input in_class now)).2 = some (some file) := by
  obtain ⟨st, hcl, hpath, hloop⟩ := learn_loop_some block_size symbol _ pool file h
  obtain ⟨a1, a2, a3, a4, a5, -, -, a8, a9⟩ := learn_acquire_spec block_size st pool
  rw [hloop] at h
  have hop : openable (learn_acquire block_size st pool).1 file = true := by
    rw [← hpath]; apply a9; rw [h]; simp
  have hop2 : ((learn_acquire block_size st pool).1.files file).isSome = true ∧
      (learn_acquire block_size st pool).1.open_fault file = false := by
    simpa [openable] using hop
  rw [winnow_learn_eq, hloop, h]
  simp only
  obtain ⟨f1, f2, f3, f4, f5, f6, f7, -⟩ := foreach_learn input file (learn_factor in_class)
    (statfile_pool_lock_file (learn_acquire block_size st pool).1 file)
    { file := some file, sum := fp.zero, count := 0, in_class := in_class, now := now } rfl
    hop2.1 rfl
  refine ⟨?_, ?_, ?_, ?_⟩
  · intro h1 h2
    have := f3 h1 h2
    simp only [statfile_pool_unlock_file, statfile_pool_lock_file, statfile_pool_t.log,
      statfile_pool_t.weight] at this ⊢
    rw [this]
    have := a5 file h1 h2
    simp only [statfile_pool_t.weight] at this
    rw [this]
  · intro p hp
    have := f1 p hp
    simp only [statfile_pool_unlock_file, statfile_pool_lock_file, statfile_pool_t.log]
      at this ⊢
    rw [this, a4 p (by rw [hpath]; exact hp)]
  · simp only [statfile_pool_unlock_file, statfile_pool_t.log, f5]
    simp only [statfile_pool_lock_file, statfile_pool_t.log, a1]
  · rw [learn_loop_eq, hcl]
    simp only
    rw [(learn_acquire_spec block_size st _).2.2.2.2.2.2.2.1]
    have : openable (statfile_pool_unlock_file
        (g_tree_foreach input learn_callback
          (statfile_pool_lock_file (learn_acquire block_size st pool).1 file,
            { file := some file, sum := fp.zero, count := 0, in_class := in_class,
              now := now })).1 file) st.path = true := by
      rw [hpath]
      simp only [openable, statfile_pool_unlock_file, statfile_pool_t.log, f2, f6]
      simp only [statfile_pool_lock_file, statfile_pool_t.log, hop2.2]
      rfl
    rw [this, hpath]; simp

/-- A call of `winnow_learn` that does not acquire a store: no weight changes and no lock
is taken. -/
theorem winnow_learn_not_acquired (block_size : Nat) (ctx : classifier_ctx)
    (pool : statfile_pool_t) (symbol : String) (input : List token_node_t) (in_class : Int)
    (now : Nat)
    (h : ∀ file, (learn_loop block_size symbol ctx.cfg.statfiles pool).2 ≠ some (some file)) :
    winnow_learn block_size ctx pool symbol input in_class now =
      (learn_loop block_size symbol ctx.cfg.statfiles pool).1 := by
  rw [winnow_learn_eq]
  rcases hr : (learn_loop block_size symbol ctx.cfg.statfiles pool).2 with _ | _ | file
  · rfl
  · rfl
  · exact absurd hr (h file)

theorem open_none (pool : statfile_pool_t) (p : String)
    (h : (statfile_pool_open pool p).1 = none) :
    (statfile_pool_open pool p).2 = pool.log (Op.open_file p) := by
  by_cases hc : ((pool.files p).isSome && !pool.open_fault p) = true
  · simp [statfile_pool_open, statfile_pool_t.log, hc] at h
  · simp only [statfile_pool_open, statfile_pool_t.log, if_neg hc]

theorem open_some (pool : statfile_pool_t) (p : String)
    (h : (statfile_pool_open pool p).1 ≠ none) :
    statfile_pool_open pool p =
      (some p, { pool.log (Op.open_file p) with opened := p :: pool.opened }) := by
  by_cases hc : ((pool.files p).isSome && !pool.open_fault p) = true
  · simp only [statfile_pool_open, statfile_pool_t.log, if_pos hc]
  · simp [statfile_pool_open, statfile_pool_t.log, hc] at h

theorem create_failed (pool : statfile_pool_t) (p : String) (n : Nat)
    (h : (statfile_pool_create pool p n).1 = -1) :
    (statfile_pool_create pool p n).2 = pool.log (Op.create p n) := by
  by_cases hc : pool.create_fault p = true
  · simp only [statfile_pool_create, statfile_pool_t.log, if_pos hc]
  · simp [statfile_pool_create, statfile_pool_t.log, hc] at h

theorem create_frame (pool : statfile_pool_t) (p : String) (n : Nat) :
    (statfile_pool_create pool p n).2.trace = pool.trace ++ [Op.create p n] ∧
      (statfile_pool_create pool p n).2.locked = pool.locked ∧
      (statfile_pool_create pool p n).2.opened = pool.opened ∧
      ∀ q h1 h2, (statfile_pool_create pool p n).2.weight q h1 h2 = pool.weight q h1 h2 := by
  by_cases hc : pool.create_fault p = true
  · have e : statfile_pool_create pool p n = (-1, pool.log (Op.create p n)) := by
      simp only [statfile_pool_create, statfile_pool_t.log, if_pos hc]
    rw [e]
    exact ⟨rfl, rfl, rfl, fun _ _ _ => rfl⟩
  · have e : statfile_pool_create pool p n =
        (0, { pool.log (Op.create p n) with
              files := fun q =>
                if q = p ∧ (pool.files p).isNone then some (fun _ _ => fp.zero)
                else pool.files q }) := by
      simp only [statfile_pool_create, statfile_pool_t.log, if_neg hc]
    rw [e]
    refine ⟨rfl, rfl, rfl, ?_⟩
    intro q h1 h2
    simp only [statfile_pool_t.weight]
    by_cases hq : q = p ∧ (pool.files p).isNone = true
    · obtain ⟨rfl, hn⟩ := hq
      simp [hn, Option.isNone_iff_eq_none.1 hn]
    · rw [if_neg hq]

/-- The trace of a call of `winnow_learn` that acquires its store: the calls of the loop,
the lock, `get_block` and `set_block` calls on the store, and the unlock. -/
theorem winnow_learn_trace (block_size : Nat) (ctx : classifier_ctx)
    (pool : statfile_pool_t) (symbol : String) (input : List token_node_t) (in_class : Int)
    (now : Nat) (file : String)
    (h : (learn_loop block_size symbol ctx.cfg.statfiles pool).2 = some (some file)) :
    ∃ ops : List Op,
      (winnow_learn block_size ctx pool symbol input in_class now).trace =
        (learn_loop block_size symbol ctx.cfg.statfiles pool).1.trace ++
          Op.lock_file file :: (ops ++ [Op.unlock_file file]) ∧
      ∀ op ∈ ops, op.on_block file = true := by
  obtain ⟨st, -, hpath, hloop⟩ := learn_loop_some block_size symbol _ pool file h
  have a9 := (learn_acquire_spec block_size st pool).2.2.2.2.2.2.2.2
  have hop : openable (learn_acquire block_size st pool).1 file = true := by
    rw [← hpath]; apply a9; rw [← hloop, h]; simp
  have hop2 : ((learn_acquire block_size st pool).1.files file).isSome = true ∧
      (learn_acquire block_size st pool).1.open_fault file = false := by
    simpa [openable] using hop
  rw [winnow_learn_eq, h]
  simp only
  rw [hloop]
  obtain ⟨-, -, -, -, -, -, -, ops, f8, f9⟩ := foreach_learn input file (learn_factor in_class)
    (statfile_pool_lock_file (learn_acquire block_size st pool).1 file)
    { file := some file, sum := fp.zero, count := 0, in_class := in_class, now := now } rfl
    hop2.1 rfl
  refine ⟨ops, ?_, f9⟩
  simp only [statfile_pool_unlock_file, statfile_pool_t.log, f8]
  simp [statfile_pool_lock_file, statfile_pool_t.log]

theorem trace_log (pool : statfile_pool_t) (op : Op) :
    (pool.log op).trace = pool.trace ++ [op] := rfl

theorem locked_log (pool : statfile_pool_t) (op : Op) :
    (pool.log op).locked = pool.locked := rfl

/-- Classes whose store is not usable do not change the accumulators. -/
theorem score_fold_filter (pool : statfile_pool_t) (input : List token_node_t)
    (sts : List statfile) :
    ∀ s : score_state,
      (sts.filter (fun st => usable pool st.path)).foldl (score_step pool input) s =
        sts.foldl (score_step pool input) s := by
  induction sts with
  | nil => intro s; rfl
  | cons st sts ih =>
    intro s
    by_cases hu : usable pool st.path = true
    · simp only [List.filter_cons, hu, if_true, List.foldl_cons]
      exact ih _
    · have hstep : score_step pool input s st = s := by
        simp only [score_step, hu]; rfl
      simp only [List.filter_cons, hu, List.foldl_cons, hstep]
      exact ih s

/-- An iteration either selects its class, whose store is then usable, or keeps the
selection. -/
theorem score_step_sel (pool : statfile_pool_t) (input : List token_node_t) (a : score_state)
    (st : statfile) :
    ((score_step pool input a st).sel = some st ∧ usable pool st.path = true) ∨
      (score_step pool input a st).sel = a.sel := by
  unfold score_step
  by_cases hu : usable pool st.path = true
  · rw [if_pos hu]
    simp only
    split_ifs <;> first | exact Or.inl ⟨rfl, hu⟩ | exact Or.inr rfl
  · rw [if_neg hu]; exact Or.inr rfl

/-- The selected class is always a class whose store is usable. -/
theorem score_fold_sel_usable (pool : statfile_pool_t) (input : List token_node_t)
    (sts : List statfile) :
    ∀ s : score_state, (∀ c, s.sel = some c → usable pool c.path = true) →
      ∀ c, (sts.foldl (score_step pool input) s).sel = some c → usable pool c.path = true := by
  induction sts with
  | nil => intro s h c hc; exact h c hc
  | cons st sts ih =>
    intro s h
    simp only [List.foldl_cons]
    apply ih
    intro c hc
    rcases score_step_sel pool input s st with ⟨h1, hu⟩ | h1
    · rw [h1] at hc
      simp only [Option.some.injEq] at hc
      rw [← hc]; exact hu
    · rw [h1] at hc; exact h c hc

/-- The store at `path` is usable exactly when `statfile_pool_is_open` finds it or
`statfile_pool_open` opens it. -/
theorem usable_iff (pool : statfile_pool_t) (path : String) :
    usable pool path = true ↔
      (statfile_pool_is_open pool path).1 ≠ none ∨ (statfile_pool_open pool path).1 ≠ none := by
  by_cases hp : path ∈ pool.opened
  · simp [usable, statfile_pool_is_open, hp]
  · by_cases ho : ((pool.files path).isSome && !pool.open_fault path) = true
    · have : (statfile_pool_open pool path).1 = some path := by
        simp only [statfile_pool_open, statfile_pool_t.log, if_pos ho]
      simp [usable, ho, this]
    · have : (statfile_pool_open pool path).1 = none := by
        simp only [statfile_pool_open, statfile_pool_t.log, if_neg ho]
      have ho2 : ((pool.files path).isSome && !pool.open_fault path) = false := by
        simpa using ho
      simp [usable, statfile_pool_is_open, hp, ho2, this]

theorem on_block_path (file : String) (op : Op) (h : op.on_block file = true) :
    op.path = file := by
  cases op <;> simp [Op.on_block] at h <;> simpa [Op.path] using h

/-- The trace of the traversal with `learn_callback`: for each token, in order, a
`get_block` and a `set_block`. -/
theorem foreach_learn_trace (input : List token_node_t) (file : String) :
    ∀ (pool : statfile_pool_t) (cd : winnow_callback_data), cd.file = some file →
      ∃ vals : List fp, vals.length = input.length ∧
        (g_tree_foreach input learn_callback (pool, cd)).1.trace =
          pool.trace ++ learn_pass file cd.now input vals := by
  induction input with
  | nil =>
    intro pool cd _
    exact ⟨[], rfl, by simp [g_tree_foreach, learn_pass]⟩
  | cons n input ih =>
    intro pool cd hf
    rw [g_tree_foreach_cons, learn_callback_eq n pool cd file hf]
    obtain ⟨vals, hl, ht⟩ := ih
      (statfile_pool_set_block (pool.log (Op.get_block file n.h1 n.h2 cd.now)) file n.h1 n.h2
        cd.now (learn_update (learn_factor cd.in_class) (pool.weight file n.h1 n.h2)))
      { cd with count := int_incr cd.count } hf
    refine ⟨learn_update (learn_factor cd.in_class) (pool.weight file n.h1 n.h2) :: vals,
      by simp [hl], ?_⟩
    rw [ht]
    simp [learn_pass, statfile_pool_set_block, statfile_pool_t.log]

/-- The class `winnow_learn` acts on, when the config is split at the first class that
carries the symbol. -/
theorem learn_class_split (symbol : String) (pre post : List statfile) (st : statfile)
    (hpre : ∀ c ∈ pre, symbol ≠ c.symbol) (hst : symbol = st.symbol) :
    learn_class symbol (pre ++ st :: post) = some st := by
  induction pre with
  | nil => simp [learn_class, hst]
  | cons c pre ih =>
    have hc : symbol ≠ c.symbol := hpre c (List.mem_cons_self _ _)
    have := ih (fun d hd => hpre d (List.mem_cons_of_mem _ hd))
    simp only [learn_class] at this ⊢
    simp [List.find?_cons, hc, this]

/-- Every call that `learn_acquire` makes is an open or a create of the path of its
class. -/
theorem learn_acquire_ops (block_size : Nat) (st : statfile) (pool : statfile_pool_t) :
    ∃ ops : List Op, (learn_acquire block_size st pool).1.trace = pool.trace ++ ops ∧
      ∀ op ∈ ops, op = Op.open_file st.path ∨ op = Op.create st.path (st.size / block_size) := by
  refine ⟨_, (learn_acquire_spec block_size st pool).2.2.2.2.2.2.1, ?_⟩
  intro op hop
  split_ifs at hop <;> simp at hop <;> tauto

/-- Every call of `winnow_learn` is about the store of the class it acts on. -/
theorem winnow_learn_ops (block_size : Nat) (ctx : classifier_ctx) (pool : statfile_pool_t)
    (symbol : String) (input : List token_node_t) (in_class : Int) (now : Nat)
    (st : statfile) (hcl : learn_class symbol ctx.cfg.statfiles = some st) :
    ∃ ops : List Op,
      (winnow_learn block_size ctx pool symbol input in_class now).trace = pool.trace ++ ops ∧
      ∀ op ∈ ops, op.path = st.path := by
  have hloop : learn_loop block_size symbol ctx.cfg.statfiles pool =
      learn_acquire block_size st pool := by rw [learn_loop_eq, hcl]
  obtain ⟨pre, hpre, hpre2⟩ := learn_acquire_ops block_size st pool
  have hpre3 : ∀ op ∈ pre, op.path = st.path := by
    intro op hop
    rcases hpre2 op hop with rfl | rfl <;> rfl
  by_cases hacq : ∃ file,
      (learn_loop block_size symbol ctx.cfg.statfiles pool).2 = some (some file)
  · obtain ⟨file, hacq⟩ := hacq
    obtain ⟨st2, hcl2, hpath, -⟩ := learn_loop_some block_size symbol _ pool file hacq
    rw [hcl] at hcl2
    have hst : st = st2 := Option.some.inj hcl2
    subst hst
    obtain ⟨ops, t1, t2⟩ := winnow_learn_trace block_size ctx pool symbol input in_class now
      file hacq
    refine ⟨pre ++ Op.lock_file file :: (ops ++ [Op.unlock_file file]), ?_, ?_⟩
    · rw [t1, hloop, hpre]; simp
    · intro op hop
      rcases List.mem_append.1 hop with hop | hop
      · exact hpre3 op hop
      rcases List.mem_cons.1 hop with rfl | hop
      · exact hpath.symm
      rcases List.mem_append.1 hop with hop | hop
      · rw [hpath]; exact on_block_path file op (t2 op hop)
      · simp at hop; subst hop; exact hpath.symm
  · have hno : ∀ file,
        (learn_loop block_size symbol ctx.cfg.statfiles pool).2 ≠ some (some file) :=
      fun file h => hacq ⟨file, h⟩
    refine ⟨pre, ?_, hpre3⟩
    rw [winnow_learn_not_acquired _ _ _ _ _ _ _ hno, hloop, hpre]

/-- The trace of a call of `winnow_learn` that acquires its store, after the calls of the
loop: the lock, the learning pass over the tokens, the unlock. -/
theorem winnow_learn_pass (block_size : Nat) (ctx : classifier_ctx)
    (pool : statfile_pool_t) (symbol : String) (input : List token_node_t) (in_class : Int)
    (now : Nat) (file : String)
    (h : (learn_loop block_size symbol ctx.cfg.statfiles pool).2 = some (some file)) :
    ∃ vals : List fp, vals.length = input.length ∧
      (winnow_learn block_size ctx pool symbol input in_class now).trace =
        (learn_loop block_size symbol ctx.cfg.statfiles pool).1.trace ++
          Op.lock_file file :: (learn_pass file now input vals ++ [Op.unlock_file file]) := by
  obtain ⟨vals, hl, ht⟩ := foreach_learn_trace input file
    (statfile_pool_lock_file (learn_loop block_size symbol ctx.cfg.statfiles pool).1 file)
    { file := some file, sum := fp.zero, count := 0, in_class := in_class, now := now } rfl
  refine ⟨vals, hl, ?_⟩
  rw [winnow_learn_eq, h]
  simp only [statfile_pool_unlock_file, statfile_pool_t.log, ht]
  simp [statfile_pool_lock_file, statfile_pool_t.log]

/-- Order independence of a call of `winnow_learn` that acquires its store. -/
theorem winnow_learn_perm_aux (block_size : Nat) (ctx : classifier_ctx)
    (pool : statfile_pool_t) (symbol : String) (input1 input2 : List token_node_t)
    (in_class : Int) (now : Nat) (file : String) (hperm : input1.Perm input2)
    (hacq : (learn_loop block_size symbol ctx.cfg.statfiles pool).2 = some (some file))
    (p : String) (h1 h2 : Nat) :
    (winnow_learn block_size ctx pool symbol input1 in_class now).weight p h1 h2 =
      (winnow_learn block_size ctx pool symbol input2 in_class now).weight p h1 h2 := by
  obtain ⟨w1, f1, -, -⟩ :=
    winnow_learn_acquired block_size ctx pool symbol input1 in_class now file hacq
  obtain ⟨w2, f2, -, -⟩ :=
    winnow_learn_acquired block_size ctx pool symbol input2 in_class now file hacq
  by_cases hp : p = file
  · subst hp
    rw [w1, w2, hperm.count_eq]
  · exact weight_of_files _ _ p (by rw [f1 p hp, f2 p hp]) h1 h2

/-- One call of `winnow_learn` that acquires its store, on a document of distinct tokens:
the block of a token of the document gets `learn_update` of its value. -/
theorem winnow_learn_step (block_size : Nat) (ctx : classifier_ctx)
    (pool : statfile_pool_t) (symbol : String) (input : List token_node_t) (in_class : Int)
    (now : Nat) (file : String)
    (hacq : (learn_loop block_size symbol ctx.cfg.statfiles pool).2 = some (some file))
    (hnd : input.Nodup) (n : token_node_t) (hn : n ∈ input) :
    (winnow_learn block_size ctx pool symbol input in_class now).weight file n.h1 n.h2 =
      learn_update (learn_factor in_class) (pool.weight file n.h1 n.h2) := by
  have h := (winnow_learn_acquired block_size ctx pool symbol input in_class now file hacq).1
    n.h1 n.h2
  have hcount : input.count (⟨n.h1, n.h2⟩ : token_node_t) = 1 :=
    List.count_eq_one_of_mem hnd hn
  rw [hcount, Function.iterate_one] at h
  exact h

theorem openable_of_open_none (pool : statfile_pool_t) (p : String)
    (h : (statfile_pool_open pool p).1 = none) : openable pool p = false := by
  by_cases hc : ((pool.files p).isSome && !pool.open_fault p) = true
  · simp [statfile_pool_open, statfile_pool_t.log, hc] at h
  · simpa [openable] using hc

/-- When the open of the store of the matched class fails, the calls of `winnow_learn` are
the failed open, one create of that path with the size of the class divided by the size of
a block, and then no further create. -/
theorem winnow_learn_create_ops (block_size : Nat) (ctx : classifier_ctx)
    (pool : statfile_pool_t) (symbol : String) (input : List token_node_t) (in_class : Int)
    (now : Nat) (st : statfile)
    (hcl : learn_class symbol ctx.cfg.statfiles = some st)
    (hfail : (statfile_pool_open pool st.path).1 = none) :
    ∃ ops : List Op,
      (winnow_learn block_size ctx pool symbol input in_class now).trace =
        pool.trace ++
          Op.open_file st.path :: Op.create st.path (st.size / block_size) :: ops ∧
      ∀ op ∈ ops, ∀ p k, op ≠ Op.create p k := by
  have hloop : learn_loop block_size symbol ctx.cfg.statfiles pool =
      learn_acquire block_size st pool := by rw [learn_loop_eq, hcl]
  have ho := openable_of_open_none pool st.path hfail
  have ht := (learn_acquire_spec block_size st pool).2.2.2.2.2.2.1
  rw [ho] at ht
  simp only [Bool.false_eq_true, if_false] at ht
  have hrest : ∀ op ∈ (if pool.create_fault st.path = true then ([] : List Op)
      else [Op.open_file st.path]), ∀ p k, op ≠ Op.create p k := by
    intro op hop p k
    split_ifs at hop
    · cases hop
    · simp at hop; subst hop; simp
  by_cases hacq : ∃ file,
      (learn_loop block_size symbol ctx.cfg.statfiles pool).2 = some (some file)
  · obtain ⟨file, hacq⟩ := hacq
    obtain ⟨ops, t1, t2⟩ := winnow_learn_trace block_size ctx pool symbol input in_class now
      file hacq
    refine ⟨(if pool.create_fault st.path = true then ([] : List Op)
      else [Op.open_file st.path]) ++ Op.lock_file file :: (ops ++ [Op.unlock_file file]),
      ?_, ?_⟩
    · rw [t1, hloop, ht]; simp
    · intro op hop p k
      rcases List.mem_append.1 hop with hop | hop
      · exact hrest op hop p k
      rcases List.mem_cons.1 hop with rfl | hop
      · simp
      rcases List.mem_append.1 hop with hop | hop
      · have := t2 op hop
        intro h; rw [h] at this; simp [Op.on_block] at this
      · simp at hop; subst hop; simp
  · have hno : ∀ file,
        (learn_loop block_size symbol ctx.cfg.statfiles pool).2 ≠ some (some file) :=
      fun file h => hacq ⟨file, h⟩
    refine ⟨_, ?_, hrest⟩
    rw [winnow_learn_not_acquired _ _ _ _ _ _ _ hno, hloop, ht]

/-! ## Lemmas on the factors and the updates -/

theorem NOT_FOUND_eq : NOT_FOUND = fp.fin false 5902958103587057 (-69) := by decide

theorem learn_factor_promote (in_class : Int) (h : in_class ≠ 0) :
    learn_factor in_class = fp.fin false 2579497 (-21) := by
  unfold learn_factor
  rw [if_pos h]
  decide

theorem learn_factor_demote : learn_factor 0 = fp.fin false 13925089 (-24) := by decide

/-- Either factor is a positive `float` of at least one half. -/
theorem learn_factor_cases (in_class : Int) :
    ∃ (mc : Nat) (ec : Int), learn_factor in_class = fp.fin false mc ec ∧
      (1 : ℚ) * (2 : ℚ) ^ (-1 : Int) ≤ (mc : ℚ) * (2 : ℚ) ^ ec := by
  by_cases h : in_class ≠ 0
  · exact ⟨2579497, -21, learn_factor_promote in_class h, by norm_num⟩
  · have h0 : in_class = 0 := by simpa using h
    subst h0
    exact ⟨13925089, -24, learn_factor_demote, by norm_num⟩

/-- A finite value that is not below `0.00001` is positive, and at least `2 ^ -17`. -/
theorem found_ge (n : Bool) (m : Nat) (e : Int)
    (h : fp.lt (fp.fin n m e) NOT_FOUND = false) :
    n = false ∧ (5902958103587057 : ℚ) * (2 : ℚ) ^ (-69 : Int) ≤ (m : ℚ) * (2 : ℚ) ^ e := by
  rw [NOT_FOUND_eq] at h
  have h1 : ¬ (fp.fin n m e).value < (fp.fin false 5902958103587057 (-69)).value := by
    intro hlt
    rw [(fp.lt_iff n false m 5902958103587057 e (-69)).2 hlt] at h
    exact Bool.noConfusion h
  have h2 := not_lt.1 h1
  simp only [fp.value] at h2
  have hpos : (0 : ℚ) < (5902958103587057 : ℚ) * (2 : ℚ) ^ (-69 : Int) := by positivity
  have hme : (0 : ℚ) ≤ (m : ℚ) * (2 : ℚ) ^ e := by positivity
  cases n with
  | false =>
    refine ⟨rfl, ?_⟩
    simpa using h2
  | true =>
    exfalso
    simp only [if_true, if_false] at h2
    norm_num at h2
    linarith

/-- A lower bound of a product of two positive `float`s: a `float` that is at most the
exact product is at most the rounded one. -/
theorem mul32_ge (m1 m2 : Nat) (e1 e2 : Int) (Y : Nat) (F : Int) (hY : Y < 2 ^ 24)
    (hF : -149 ≤ F) (h1 : m1 ≠ 0) (h2 : m2 ≠ 0)
    (h : (Y : ℚ) * (2 : ℚ) ^ F ≤ ((m1 : ℚ) * (2 : ℚ) ^ e1) * ((m2 : ℚ) * (2 : ℚ) ^ e2)) :
    fp.mul32 (fp.fin false m1 e1) (fp.fin false m2 e2) = fp.inf false ∨
      ∃ (m : Nat) (e : Int), fp.mul32 (fp.fin false m1 e1) (fp.fin false m2 e2) =
        fp.fin false m e ∧ (Y : ℚ) * (2 : ℚ) ^ F ≤ (m : ℚ) * (2 : ℚ) ^ e := by
  have hm : m1 * m2 ≠ 0 := Nat.mul_ne_zero h1 h2
  have hv : (Y : ℚ) * (2 : ℚ) ^ F ≤ ((m1 * m2 : Nat) : ℚ) * (2 : ℚ) ^ (e1 + e2) := by
    rw [zpow_add₀ (by norm_num : (2 : ℚ) ≠ 0)]
    push_cast
    calc (Y : ℚ) * (2 : ℚ) ^ F ≤ ((m1 : ℚ) * (2 : ℚ) ^ e1) * ((m2 : ℚ) * (2 : ℚ) ^ e2) := h
      _ = (m1 : ℚ) * (m2 : ℚ) * ((2 : ℚ) ^ e1 * (2 : ℚ) ^ e2) := by ring
  exact round_ge 24 (-149) 127 (m1 * m2) (e1 + e2) Y F (by norm_num) hm hY hF hv

theorem pos_of_ge (m : Nat) (e : Int) (Y : Nat) (F : Int) (hY : Y ≠ 0)
    (h : (Y : ℚ) * (2 : ℚ) ^ F ≤ (m : ℚ) * (2 : ℚ) ^ e) :
    fp.lt fp.zero (fp.fin false m e) = true := by
  rw [fp.zero, fp.lt_iff]
  simp only [fp.value]
  have hYq : (0 : ℚ) < (Y : ℚ) := by exact_mod_cast Nat.pos_of_ne_zero hY
  have : (0 : ℚ) < (Y : ℚ) * (2 : ℚ) ^ F := by positivity
  simp
  linarith

theorem lt_zero_ne_nan (v : fp) (h : fp.lt fp.zero v = true) : v ≠ fp.nan := by
  intro hv
  rw [hv] at h
  exact Bool.noConfusion h

/-- The value `learn_callback` writes is positive, whatever it read but a NaN. -/
theorem learn_update_pos (in_class : Int) (v : fp) (hv : v ≠ fp.nan) :
    fp.lt fp.zero (learn_update (learn_factor in_class) v) = true := by
  obtain ⟨mc, ec, hc, hcge⟩ := learn_factor_cases in_class
  have hcpos : fp.lt fp.zero (fp.fin false mc ec) = true :=
    pos_of_ge mc ec 1 (-1) (by norm_num) (by exact_mod_cast hcge)
  have hmc : mc ≠ 0 := by
    intro h0
    rw [h0] at hcge
    norm_num at hcge
  rw [hc]
  unfold learn_update
  by_cases hlt : fp.lt v NOT_FOUND = true
  · rw [if_pos hlt]; exact hcpos
  · rw [if_neg hlt]
    have hlt2 : fp.lt v NOT_FOUND = false := by simpa using hlt
    cases v with
    | nan => exact absurd rfl hv
    | inf n =>
      cases n with
      | true => rw [NOT_FOUND_eq] at hlt2; exact absurd hlt2 (by decide)
      | false => simp [fp.mul32, hmc, fp.lt, fp.zero]
    | fin n m e =>
      obtain ⟨hn, hge⟩ := found_ge n m e hlt2
      subst hn
      have hm : m ≠ 0 := by
        intro h0
        rw [h0] at hge
        norm_num at hge
      have hprod : ((1 : Nat) : ℚ) * (2 : ℚ) ^ (-18 : Int) ≤
          ((m : ℚ) * (2 : ℚ) ^ e) * ((mc : ℚ) * (2 : ℚ) ^ ec) := by
        have a1 : (2 : ℚ) ^ (-17 : Int) ≤ (m : ℚ) * (2 : ℚ) ^ e :=
          le_trans (by norm_num) hge
        have a2 : (2 : ℚ) ^ (-1 : Int) ≤ (mc : ℚ) * (2 : ℚ) ^ ec := by simpa using hcge
        have a3 : (2 : ℚ) ^ (-17 : Int) * (2 : ℚ) ^ (-1 : Int) ≤
            ((m : ℚ) * (2 : ℚ) ^ e) * ((mc : ℚ) * (2 : ℚ) ^ ec) :=
          mul_le_mul a1 a2 (by positivity) (by positivity)
        calc ((1 : Nat) : ℚ) * (2 : ℚ) ^ (-18 : Int)
            = (2 : ℚ) ^ (-17 : Int) * (2 : ℚ) ^ (-1 : Int) := by norm_num
          _ ≤ _ := a3
      rcases mul32_ge m mc e ec 1 (-18) (by norm_num) (by norm_num) hm hmc hprod with
        hinf | ⟨m1, e1, heq, hge1⟩
      · rw [hinf]; decide
      · rw [heq]; exact pos_of_ge m1 e1 1 (-18) (by norm_num) hge1

/-- The iterated updates of a block are positive from the first one on. -/
theorem learn_update_iterate_pos (in_class : Int) (k : Nat) (v : fp) (hv : v ≠ fp.nan) :
    fp.lt fp.zero ((learn_update (learn_factor in_class))^[k + 1] v) = true := by
  induction k generalizing v with
  | zero => exact learn_update_pos in_class v hv
  | succ k ih =>
    rw [Function.iterate_succ_apply]
    exact ih _ (lt_zero_ne_nan _ (learn_update_pos in_class v hv))

/-! ## Lemmas on repeated calls of winnow_learn -/

/-- Successive calls of `winnow_learn` that acquire the store, on a document of distinct
tokens: the block of a token of the document is updated once in every call. -/
theorem calls_iterate (block_size : Nat) (ctx : classifier_ctx) (symbol : String)
    (input : List token_node_t) (in_class : Int) (file : String) (hnd : input.Nodup)
    (n : token_node_t) (hn : n ∈ input) (nows : List Nat) :
    ∀ pool : statfile_pool_t,
      (learn_loop block_size symbol ctx.cfg.statfiles pool).2 = some (some file) →
      (winnow_learn_calls block_size ctx symbol input in_class nows pool).weight file
          n.h1 n.h2 =
        (learn_update (learn_factor in_class))^[nows.length] (pool.weight file n.h1 n.h2) := by
  induction nows with
  | nil => intro pool _; rfl
  | cons now nows ih =>
    intro pool hacq
    simp only [winnow_learn_calls, List.length_cons, Function.iterate_succ_apply]
    rw [ih _ (winnow_learn_acquired block_size ctx pool symbol input in_class now file hacq).2.2.2,
      winnow_learn_step block_size ctx pool symbol input in_class now file hacq hnd n hn]

/-- Every call of `winnow_learn` that acquires its store leaves a positive weight in the
blocks of the tokens of the document, when these held no NaN before the calls. -/
theorem calls_positive (block_size : Nat) (ctx : classifier_ctx) (symbol : String)
    (input : List token_node_t) (in_class : Int) (file : String) (n : token_node_t)
    (hn : n ∈ input) (nows : List Nat) :
    ∀ pool : statfile_pool_t,
      (learn_loop block_size symbol ctx.cfg.statfiles pool).2 = some (some file) →
      pool.weight file n.h1 n.h2 ≠ fp.nan →
      nows ≠ [] →
      fp.lt fp.zero ((winnow_learn_calls block_size ctx symbol input in_class nows pool).weight
        file n.h1 n.h2) = true := by
  induction nows with
  | nil => intro pool _ _ h; exact absurd rfl h
  | cons now nows ih =>
    intro pool hacq hnan _
    obtain ⟨w1, -, -, w4⟩ :=
      winnow_learn_acquired block_size ctx pool symbol input in_class now file hacq
    have hc : 0 < input.count (⟨n.h1, n.h2⟩ : token_node_t) := List.count_pos_iff.2 hn
    obtain ⟨k, hk⟩ := Nat.exists_eq_succ_of_ne_zero hc.ne'
    have hpos : fp.lt fp.zero ((winnow_learn block_size ctx pool symbol input in_class
        now).weight file n.h1 n.h2) = true := by
      rw [w1 n.h1 n.h2, hk]
      exact learn_update_iterate_pos in_class k _ hnan
    simp only [winnow_learn_calls]
    cases nows with
    | nil => exact hpos
    | cons now2 nows => exact ih _ w4 (lt_zero_ne_nan _ hpos) (by simp)

theorem unseen_ne_nan (v : fp) (h : fp.lt v NOT_FOUND = true) : v ≠ fp.nan := by
  intro hv
  rw [hv] at h
  exact Bool.noConfusion h

/-- A finite value of at least `11 * 2 ^ -20` is not below `0.00001`. -/
theorem found_of_ge (m : Nat) (e : Int)
    (h : ((11 : Nat) : ℚ) * (2 : ℚ) ^ (-20 : Int) ≤ (m : ℚ) * (2 : ℚ) ^ e) :
    fp.lt (fp.fin false m e) NOT_FOUND = false := by
  rw [NOT_FOUND_eq]
  apply Bool.eq_false_iff.2
  intro hlt
  have h1 := (fp.lt_iff false false m 5902958103587057 e (-69)).1 hlt
  simp only [fp.value, Bool.false_eq_true, if_false, one_mul] at h1
  have h2 : ((5902958103587057 : Nat) : ℚ) * (2 : ℚ) ^ (-69 : Int) <
      ((11 : Nat) : ℚ) * (2 : ℚ) ^ (-20 : Int) := by norm_num
  linarith

/-- The promotion of a block that is read as found stores a value that is read as found. -/
theorem promote_found (v : fp) (h : fp.lt v NOT_FOUND = false) :
    fp.lt (fp.mul32 v (fp.fin false 2579497 (-21))) NOT_FOUND = false := by
  cases v with
  | nan => rw [NOT_FOUND_eq]; decide
  | inf n =>
    cases n with
    | true => rw [NOT_FOUND_eq] at h; exact absurd h (by decide)
    | false => rw [NOT_FOUND_eq]; decide
  | fin n m e =>
    obtain ⟨hn, hge⟩ := found_ge n m e h
    subst hn
    have hm : m ≠ 0 := by
      intro h0
      rw [h0] at hge
      norm_num at hge
    have hprod : ((11 : Nat) : ℚ) * (2 : ℚ) ^ (-20 : Int) ≤
        ((m : ℚ) * (2 : ℚ) ^ e) * (((2579497 : Nat) : ℚ) * (2 : ℚ) ^ (-21 : Int)) := by
      have a2 : (0 : ℚ) ≤ ((2579497 : Nat) : ℚ) * (2 : ℚ) ^ (-21 : Int) := by positivity
      have a3 := mul_le_mul_of_nonneg_right hge a2
      refine le_trans ?_ a3
      norm_num
    rcases mul32_ge m 2579497 e (-21) 11 (-20) (by norm_num) (by norm_num) hm (by norm_num)
      hprod with hinf | ⟨m1, e1, heq, hge1⟩
    · rw [hinf, NOT_FOUND_eq]; decide
    · rw [heq]; exact found_of_ge m1 e1 hge1

/-- Promotions of a block that holds `1.23f`: every call multiplies by `1.23f`. -/
theorem promote_iterate (k : Nat) :
    (learn_update (fp.fin false 2579497 (-21)))^[k] (fp.fin false 2579497 (-21)) =
        (fun v => fp.mul32 v (fp.fin false 2579497 (-21)))^[k] (fp.fin false 2579497 (-21)) ∧
      fp.lt ((fun v => fp.mul32 v (fp.fin false 2579497 (-21)))^[k]
        (fp.fin false 2579497 (-21))) NOT_FOUND = false := by
  induction k with
  | zero =>
    refine ⟨rfl, ?_⟩
    rw [NOT_FOUND_eq]; decide
  | succ k ih =>
    obtain ⟨h1, h2⟩ := ih
    rw [Function.iterate_succ_apply', Function.iterate_succ_apply', h1]
    refine ⟨?_, promote_found _ h2⟩
    simp only [learn_update, h2]
    simp

set_option maxRecDepth 100000 in
theorem promote_428 :
    (fun v => fp.mul32 v (fp.fin false 2579497 (-21)))^[428] (fp.fin false 2579497 (-21)) =
      fp.inf false := by
  decide!

theorem promote_inf (k : Nat) :
    (fun v => fp.mul32 v (fp.fin false 2579497 (-21)))^[k] (fp.inf false) = fp.inf false := by
  induction k with
  | zero => rfl
  | succ k ih =>
    rw [Function.iterate_succ_apply', ih]
    decide

/-- From the 429th promotion on the block holds `+inf`. -/
theorem promote_overflow (k : Nat) (hk : 428 ≤ k) :
    (fun v => fp.mul32 v (fp.fin false 2579497 (-21)))^[k] (fp.fin false 2579497 (-21)) =
      fp.inf false := by
  obtain ⟨j, rfl⟩ := Nat.exists_eq_add_of_le hk
  rw [Nat.add_comm, Function.iterate_add_apply, promote_428, promote_inf]

/-! ## Lemmas on the accumulators -/

theorem of_int_nat (k : Nat) : fp.of_int (k : Int) = fp.canon false k 0 := by
  unfold fp.of_int
  have h : decide ((k : Int) < 0) = false := by simp
  rw [h, Int.natAbs_ofNat]

/-- Adding `1.0` to a `double` that holds a small integer is exact. -/
theorem add64_one (k : Nat) (hk : k + 1 < 2 ^ 53) :
    fp.add64 (fp.of_int (k : Int)) (fp.of_int 1) = fp.of_int ((k + 1 : Nat) : Int) := by
  have h1 : fp.of_int 1 = fp.fin false 1 0 := by decide
  have hr : fp.round64 false (k + 1) 0 = fp.canon false (k + 1) 0 := by
    have hl : ilog2 (k + 1) < 53 := ilog2_lt (k + 1) 53 (by omega) hk
    unfold fp.round64 fp.round
    rw [if_neg (by omega)]
    have hs : max ((ilog2 (k + 1) : Int) + 1 - ((53 : Nat) : Int)) (-1074 - 0) ≤ 0 := by
      apply max_le <;> omega
    simp only
    rw [if_pos hs, if_neg (by omega)]
  rw [of_int_nat, of_int_nat, h1]
  by_cases hk0 : k = 0
  · subst hk0; decide
  · obtain ⟨t, ht, hmul, -⟩ := canon_eq false k 0 hk0
    rw [ht]
    have hmin : min ((0 : Int) + (t : Int)) 0 = 0 := by
      apply min_eq_right; omega
    have hs : fp.scaled false (k / 2 ^ t) ((0 : Int) + (t : Int) - 0) + fp.scaled false 1 (0 - 0) =
        ((k + 1 : Nat) : Int) := by
      simp only [fp.scaled]
      have : ((0 : Int) + (t : Int) - 0).toNat = t := by simp
      rw [this]
      simp only [Bool.false_eq_true, if_false, one_mul, sub_self, Int.toNat_zero, pow_zero,
        mul_one]
      rw [hmul]
      push_cast
      ring
    simp only [fp.add64, hmin, hs]
    have hne : ((k + 1 : Nat) : Int) ≠ 0 := by exact_mod_cast Nat.succ_ne_zero k
    rw [if_neg hne]
    have hd : decide (((k + 1 : Nat) : Int) < 0) = false := by
      simp only [decide_eq_false_iff_not, not_lt]
      exact Int.natCast_nonneg _
    rw [hd, Int.natAbs_ofNat, hr]

theorem class_add_unseen (pool : statfile_pool_t) (path : String)
    (input : List token_node_t)
    (hunseen : ∀ n ∈ input, fp.lt (pool.weight path n.h1 n.h2) NOT_FOUND = true) :
    ∀ k : Nat, k + input.length < 2 ^ 53 →
      class_add pool path input (fp.of_int (k : Int)) =
        fp.of_int ((k + input.length : Nat) : Int) := by
  induction input with
  | nil => intro k _; rfl
  | cons n input ih =>
    intro k hk
    simp only [List.length_cons] at hk
    rw [class_add_cons]
    have hn := hunseen n (List.mem_cons_self _ _)
    simp only [effective, if_pos hn]
    rw [add64_one k (by omega), ih (fun x hx => hunseen x (List.mem_cons_of_mem _ hx)) (k + 1)
      (by omega)]
    simp only [List.length_cons]
    congr 2
    omega

theorem round64_two_pow (j : Nat) (hj : 53 ≤ j) :
    fp.round64 false (2 ^ j) (-(j : Int)) = fp.fin false 1 0 := by
  have hc : fp.canon false (2 ^ 52) (-52) = fp.fin false 1 0 := by decide
  have hl52 : ilog2 (2 ^ 52) = 52 := ilog2_two_pow 52
  unfold fp.round64 fp.round
  rw [if_neg (by positivity), ilog2_two_pow]
  have hs : max ((j : Int) + 1 - ((53 : Nat) : Int)) (-1074 - -(j : Int)) = (j : Int) - 52 := by
    rw [max_eq_left] <;> push_cast <;> omega
  simp only
  rw [hs, if_neg (by omega)]
  have hk : ((j : Int) - 52).toNat = j - 52 := by omega
  rw [hk]
  have hq : 2 ^ j / 2 ^ (j - 52) = 2 ^ 52 := by
    rw [Nat.pow_div (by omega) (by norm_num)]
    congr 1
    omega
  have hr : 2 ^ j % 2 ^ (j - 52) = 0 := by
    apply Nat.mod_eq_zero_of_dvd
    exact pow_dvd_pow 2 (by omega)
  rw [hq, hr]
  have hcond : ¬ (2 ^ (j - 52 - 1) < 0 ∨ (0 = 2 ^ (j - 52 - 1) ∧ 2 ^ 52 % 2 = 1)) := by
    rintro (h | ⟨h, -⟩)
    · exact Nat.not_lt_zero _ h
    · have : 0 < 2 ^ (j - 52 - 1) := by positivity
      omega
  rw [if_neg hcond, hl52]
  have he : -(j : Int) + ((j : Int) - 52) = -52 := by ring
  rw [he, if_neg (by norm_num), hc]

/-- A small positive integer divided by itself is exactly `1.0`. -/
theorem div64_self (m : Nat) (hm : m ≠ 0) :
    fp.div64 (fp.of_int (m : Int)) (fp.of_int (m : Int)) = fp.fin false 1 0 := by
  obtain ⟨t, ht, -, ha⟩ := canon_eq false m 0 hm
  rw [of_int_nat, ht]
  simp only [fp.div64]
  rw [if_neg ha, if_neg ha, Nat.mul_div_cancel_left _ (Nat.pos_of_ne_zero ha),
    Nat.mul_mod_right]
  simp only [if_true, add_zero, Bool.xor_false]
  have e1 : 2 * 2 ^ (ilog2 (m / 2 ^ t) + 56) = 2 ^ (ilog2 (m / 2 ^ t) + 57) := by
    rw [pow_succ]; ring
  have e2 : (0 : Int) + (t : Int) - (0 + (t : Int)) - ((ilog2 (m / 2 ^ t) + 56 : Nat) : Int) - 1 =
      -((ilog2 (m / 2 ^ t) + 57 : Nat) : Int) := by
    push_cast; ring
  rw [e1, e2]
  exact round64_two_pow _ (by omega)

theorem winnow_classify_fold (ctx : classifier_ctx) (pool : statfile_pool_t)
    (input : List token_node_t) (now : Nat) :
    (winnow_classify ctx pool input now).sel =
      (ctx.cfg.statfiles.foldl (classify_step input) (classify_init pool now)).sel := rfl

/-- The iteration of the loop of `winnow_classify` compares `classify_res` with `max`. -/
theorem classify_step_res (input : List token_node_t) (s : classify_state) (st : statfile) :
    (classify_step input s st).max =
        (match classify_res input s st with
          | none => s.max
          | some r => if fp.lt s.max r then r else s.max) ∧
      (classify_step input s st).sel =
        (match classify_res input s st with
          | none => s.sel
          | some r => if fp.lt s.max r then some st else s.sel) := by
  rw [classify_step_eq]
  unfold classify_res
  cases h : (classify_acquire s.pool st.path).1 with
  | none => exact ⟨rfl, rfl⟩
  | some file =>
    refine ⟨?_, ?_⟩
    · exact apply_ite classify_state.max _ _ _
    · exact apply_ite classify_state.sel _ _ _

/-- The value of `*res` in terms of the accumulators and the stores at the start of the
call. -/
theorem classify_res_spec (pool0 : statfile_pool_t) (input : List token_node_t)
    (s : classify_state) (st : statfile) (h : reads_only pool0 s.pool) :
    classify_res input s st =
      if usable pool0 st.path then
        some (score_res (class_add pool0 st.path input s.data.sum)
          (count_add s.data.count input.length))
      else none := by
  obtain ⟨hacq, hfile⟩ := classify_acquire_spec pool0 s.pool st.path h
  unfold classify_res
  by_cases hu : usable pool0 st.path = true
  · rw [if_pos hu] at hfile
    rw [if_pos hu]
    simp only [hfile]
    obtain ⟨-, -, -, hsum, hcount⟩ := foreach_classify input st.path
      (classify_acquire s.pool st.path).2 { s.data with file := some st.path } rfl
    rw [class_add_of_files _ pool0 hacq.files] at hsum
    simp only at hsum hcount
    rw [hsum, hcount]
    rfl
  · rw [if_neg hu] at hfile
    rw [if_neg hu]
    simp only [hfile]

theorem count_add_add (c : Int) (a b : Nat) :
    count_add (count_add c a) b = count_add c (a + b) := by
  unfold count_add
  rw [Nat.add_comm, Function.iterate_add_apply]

theorem count_add_zero (m : Nat) (h : m < 2147483648) : count_add 0 m = (m : Int) := by
  rw [count_add_eq m 0 (le_refl 0) (by omega)]
  simp

/-- The accumulators after the loop has run over the classes `sts`: the effective weights
of the usable classes are added to `sum` class after class, and their token counts to
`count`. -/
theorem score_fold_totals (pool : statfile_pool_t) (input : List token_node_t)
    (sts : List statfile) :
    ∀ s : score_state,
      (sts.foldl (score_step pool input) s).sum =
          (sts.filter (fun c => usable pool c.path)).foldl
            (fun acc c => class_add pool c.path input acc) s.sum ∧
        (sts.foldl (score_step pool input) s).count = count_add s.count
          ((sts.filter (fun c => usable pool c.path)).length * input.length) := by
  induction sts with
  | nil => intro s; simp [count_add]
  | cons st sts ih =>
    intro s
    simp only [List.foldl_cons]
    obtain ⟨h1, h2⟩ := ih (score_step pool input s st)
    by_cases hu : usable pool st.path = true
    · have hs : (score_step pool input s st).sum = class_add pool st.path input s.sum ∧
          (score_step pool input s st).count = count_add s.count input.length := by
        unfold score_step
        rw [if_pos hu]
        simp only
        split_ifs <;> exact ⟨rfl, rfl⟩
      rw [h1, h2, hs.1, hs.2]
      simp only [List.filter_cons, hu, if_true, List.foldl_cons, List.length_cons, true_and]
      rw [count_add_add]
      congr 1
      ring
    · have hstep : score_step pool input s st = s := by
        simp only [score_step, hu]; rfl
      rw [h1, h2, hstep]
      simp only [List.filter_cons, hu]
      exact ⟨rfl, rfl⟩

theorem demote_first : fp.lt (fp.fin false 13925089 (-24)) (fp.of_int 1) = true := by decide

/-- The weights that demotions of a block holding `0.83f` leave are strictly decreasing
for 61 calls. -/
theorem demote_chain :
    ∀ j, j < 61 → fp.lt ((learn_update (fp.fin false 13925089 (-24)))^[j + 1]
        (fp.fin false 13925089 (-24)))
      ((learn_update (fp.fin false 13925089 (-24)))^[j] (fp.fin false 13925089 (-24))) =
        true := by
  decide!

set_option maxRecDepth 100000 in
theorem demote_62 :
    (learn_update (fp.fin false 13925089 (-24)))^[61] (fp.fin false 13925089 (-24)) =
      fp.fin false 5284585 (-39) := by
  decide!

set_option maxRecDepth 100000 in
theorem demote_63 :
    (learn_update (fp.fin false 13925089 (-24)))^[62] (fp.fin false 13925089 (-24)) =
      fp.fin false 13925089 (-24) := by
  decide!

theorem demote_63_not_lt :
    fp.lt (fp.fin false 13925089 (-24)) (fp.fin false 5284585 (-39)) = false := by decide

/-- The weight after `k + 1` updates of a block that was read as absent. -/
theorem iterate_unseen (c w : fp) (k : Nat) (h : fp.lt w NOT_FOUND = true) :
    (learn_update c)^[k + 1] w = (learn_update c)^[k] c := by
  rw [Function.iterate_succ_apply]
  simp only [learn_update, if_pos h]

/-- The calls of the `is_open`/`open` attempt of `winnow_classify`: an `is_open`, and an
`open` when the handle was not open. -/
theorem classify_acquire_trace (pool : statfile_pool_t) (path : String) :
    (classify_acquire pool path).2.trace = pool.trace ++
      (Op.is_open path :: if path ∈ pool.opened then [] else [Op.open_file path]) := by
  by_cases hp : path ∈ pool.opened
  · simp [classify_acquire, statfile_pool_is_open, hp, statfile_pool_t.log]
  · by_cases ho : ((pool.files path).isSome && !pool.open_fault path) = true
    · have : (classify_acquire pool path) =
          (some path, { (pool.log (Op.is_open path)).log (Op.open_file path) with
            opened := path :: pool.opened }) := by
        simp [classify_acquire, statfile_pool_is_open, hp, statfile_pool_open]
        simp [statfile_pool_t.log]
        simpa using ho
      rw [this]
      simp [statfile_pool_t.log, hp]
    · have : (classify_acquire pool path) =
          (none, (pool.log (Op.is_open path)).log (Op.open_file path)) := by
        simp [classify_acquire, statfile_pool_is_open, hp, statfile_pool_open]
        simp [statfile_pool_t.log]
        simpa using ho
      rw [this]
      simp [statfile_pool_t.log, hp]

/-- One iteration of the loop of `winnow_classify` for a class whose store is usable: the
calls it makes, and the accumulators it leaves. -/
theorem classify_step_usable (pool0 : statfile_pool_t) (input : List token_node_t)
    (s : classify_state) (st : statfile) (h : reads_only pool0 s.pool)
    (hu : usable pool0 st.path = true) :
    (classify_step input s st).pool.trace = s.pool.trace ++
        (Op.is_open st.path :: if st.path ∈ s.pool.opened then [] else [Op.open_file st.path]) ++
        input.map (fun n => Op.get_block st.path n.h1 n.h2 s.data.now) ∧
      (classify_step input s st).data.sum = class_add pool0 st.path input s.data.sum ∧
      (classify_step input s st).data.count = count_add s.data.count input.length := by
  obtain ⟨hacq, hfile⟩ := classify_acquire_spec pool0 s.pool st.path h
  rw [if_pos hu] at hfile
  obtain ⟨hp, -, -, hsum, hcount⟩ := foreach_classify input st.path
    (classify_acquire s.pool st.path).2 { s.data with file := some st.path } rfl
  rw [class_add_of_files _ pool0 hacq.files] at hsum
  simp only at hsum hcount hp
  have htr := classify_acquire_trace s.pool st.path
  rw [classify_step_eq]
  simp only [hfile]
  generalize g_tree_foreach input classify_callback
    ((classify_acquire s.pool st.path).2,
      ({ file := some st.path, sum := s.data.sum, count := s.data.count,
         in_class := s.data.in_class, now := s.data.now } : winnow_callback_data)) = d
    at hsum hcount hp ⊢
  have hd : d.1.trace = s.pool.trace ++
      (Op.is_open st.path :: if st.path ∈ s.pool.opened then [] else [Op.open_file st.path]) ++
      input.map (fun n => Op.get_block st.path n.h1 n.h2 s.data.now) := by
    rw [hp, ← htr]
  by_cases hres : fp.lt s.max
      (if d.2.count ≠ 0 then fp.div64 d.2.sum (fp.of_int d.2.count) else fp.zero) = true
  · rw [if_pos hres]; exact ⟨hd, hsum, hcount⟩
  · rw [if_neg hres]; exact ⟨hd, hsum, hcount⟩

/-! ## Evaluations on the examples -/

set_option maxRecDepth 100000 in
theorem abc_scores :
    class_score abc_pool "/a" one_token = flt 2 5 ∧
      class_score abc_pool "/b" one_token = flt 9 10 ∧
      class_score abc_pool "/c" one_token = flt 7 10 ∧
      fp.lt (class_score abc_pool "/a" one_token) (class_score abc_pool "/b" one_token) = true ∧
      fp.lt (class_score abc_pool "/c" one_token) (class_score abc_pool "/b" one_token) = true := by
  decide!

set_option maxRecDepth 100000 in
theorem abc_selects :
    (winnow_classify abc_ctx abc_pool one_token 0).sel = some ⟨"C", "/c", 1024⟩ ∧
      (winnow_classify abc_ctx abc_pool one_token 0).inserted = some ("default", "C", 1) := by
  decide!

set_option maxRecDepth 100000 in
theorem xy_scores :
    class_score xy_pool "/x" two_tokens = class_score xy_pool "/y" two_tokens ∧
      fp.lt (class_score xy_pool "/x" two_tokens) (class_score xy_pool "/y" two_tokens) = false := by
  decide!

set_option maxRecDepth 100000 in
theorem xy_reachable :
    (learn_update (learn_factor 1))^[104] fp.zero = fp.fin false 546729 12 ∧
      (learn_update (learn_factor 1))^[8] fp.zero = fp.fin false 10986791 (-21) := by
  decide!

set_option maxRecDepth 100000 in
theorem xy_selects :
    (winnow_classify xy_ctx xy_pool two_tokens 0).sel = some ⟨"Y", "/y", 1024⟩ ∧
      (winnow_classify xy_ctx xy_pool two_tokens 0).inserted = some ("default", "Y", 1) ∧
      (winnow_classify xy_ctx xy_pool two_tokens 0).max = fp.fin false 587045795067045 (-19) := by
  decide!

set_option maxRecDepth 100000 in
theorem xy_first :
    classify_res two_tokens (classify_init xy_pool 0) ⟨"X", "/x", 1024⟩ =
      some (fp.fin false 4696366360536359 (-22)) := by
  decide!

theorem abc_acquired :
    (learn_loop 16 "B" abc_ctx.cfg.statfiles abc_pool).2 = some (some "/b") := by decide

theorem abcd_acquired_a :
    (learn_loop 16 "A" abcd_ctx.cfg.statfiles abcd_pool).2 = some (some "/a") := by decide

theorem abcd_acquired_b :
    (learn_loop 16 "B" abcd_ctx.cfg.statfiles abcd_pool).2 = some (some "/b") := by decide

theorem one_token_nodup : one_token.Nodup := by simp [one_token]

theorem one_token_mem : (⟨1, 2⟩ : token_node_t) ∈ one_token := by simp [one_token]

theorem abcd_unseen (p : String) (h1 h2 : Nat) :
    fp.lt (abcd_pool.weight p h1 h2) NOT_FOUND = true := by
  have h : abcd_pool.weight p h1 h2 = fp.zero := by
    unfold statfile_pool_t.weight abcd_pool
    by_cases hp : p = "/a" <;> simp [hp]
  rw [h, NOT_FOUND_eq]
  decide

/-- The weight of the token in the store of B of the three-class example after one
promotion: the `float` product of `0.9f` and `1.23f`. -/
theorem abc_promoted :
    (winnow_learn 16 abc_ctx abc_pool "B" one_token 1 0).weight "/b" 1 2 =
      fp.fin false 9286189 (-23) := by
  rw [winnow_learn_step 16 abc_ctx abc_pool "B" one_token 1 0 "/b" abc_acquired
    one_token_nodup ⟨1, 2⟩ one_token_mem]
  decide

/-- The weight of an unseen token in the store of B of the four-class example after `k + 1`
promotions. -/
theorem abcd_promoted (nows : List Nat) (now : Nat) :
    (winnow_learn_calls 16 abcd_ctx "B" one_token 1 (now :: nows) abcd_pool).weight "/b" 1 2 =
      (fun v => fp.mul32 v (fp.fin false 2579497 (-21)))^[nows.length]
        (fp.fin false 2579497 (-21)) := by
  rw [calls_iterate 16 abcd_ctx "B" one_token 1 "/b" one_token_nodup ⟨1, 2⟩ one_token_mem
    (now :: nows) abcd_pool abcd_acquired_b, List.length_cons,
    iterate_unseen _ _ _ (abcd_unseen "/b" 1 2), learn_factor_promote 1 (by decide),
    (promote_iterate nows.length).1]

/-- The weight of an unseen token in the store of A of the four-class example after `k + 1`
demotions. -/
theorem abcd_demoted (nows : List Nat) (now : Nat) :
    (winnow_learn_calls 16 abcd_ctx "A" one_token 0 (now :: nows) abcd_pool).weight "/a" 1 2 =
      (learn_update (fp.fin false 13925089 (-24)))^[nows.length]
        (fp.fin false 13925089 (-24)) := by
  rw [calls_iterate 16 abcd_ctx "A" one_token 0 "/a" one_token_nodup ⟨1, 2⟩ one_token_mem
    (now :: nows) abcd_pool abcd_acquired_a, List.length_cons,
    iterate_unseen _ _ _ (abcd_unseen "/a" 1 2), learn_factor_demote]

theorem promote_two :
    fp.mul32 (fp.fin false 2579497 (-21)) (fp.fin false 2579497 (-21)) =
      fp.fin false 12691125 (-23) := by decide

/-- Successive demotions of a block that was unseen, on a document of distinct tokens:
after `k >= 1` calls the block holds `0.83f` updated `k - 1` times. -/
theorem calls_demote_unseen (block_size : Nat) (ctx : classifier_ctx) (symbol : String)
    (input : List token_node_t) (file : String) (hnd : input.Nodup) (n : token_node_t)
    (hn : n ∈ input) (pool : statfile_pool_t)
    (hacq : (learn_loop block_size symbol ctx.cfg.statfiles pool).2 = some (some file))
    (hunseen : fp.lt (pool.weight file n.h1 n.h2) NOT_FOUND = true) (nows : List Nat)
    (hne : nows ≠ []) :
    (winnow_learn_calls block_size ctx symbol input 0 nows pool).weight file n.h1 n.h2 =
      (learn_update (fp.fin false 13925089 (-24)))^[nows.length - 1]
        (fp.fin false 13925089 (-24)) := by
  obtain ⟨k, hk⟩ := Nat.exists_eq_succ_of_ne_zero (fun h => hne (List.length_eq_zero.1 h))
  rw [calls_iterate block_size ctx symbol input 0 file hnd n hn nows pool hacq, hk,
    iterate_unseen _ _ _ hunseen, learn_factor_demote]
  rfl

set_option maxRecDepth 100000 in
theorem big_eval :
    classify_res one_token
        (List.foldl (classify_step one_token) (classify_init big_pool 0) [⟨"A", "/a", 1024⟩])
        ⟨"B", "/b", 1024⟩ = some (fp.fin false 1 59) ∧
      classify_res one_token
        (List.foldl (classify_step one_token) (classify_init big_pool 0)
          [⟨"A", "/a", 1024⟩, ⟨"B", "/b", 1024⟩])
        ⟨"C", "/c", 1024⟩ = some (fp.fin false 1 60) ∧
      effective (big_pool.weight "/a" 1 2) = fp.fin false 1 60 ∧
      effective (big_pool.weight "/b" 1 2) = fp.fin false 1 0 ∧
      (winnow_classify abc_ctx big_pool one_token 0).sel = some ⟨"A", "/a", 1024⟩ := by
  decide!

set_option maxRecDepth 100000 in
theorem abc_cumulative :
    cumulative_score abc_pool one_token [⟨"A", "/a", 1024⟩, ⟨"B", "/b", 1024⟩] =
        fp.fin false 43620761 (-26) ∧
      class_score abc_pool "/b" one_token = fp.fin false 7549747 (-23) := by
  decide!

/-- Claim C1. The three classes A, B, C have the own scores 0.4, 0.9 and 0.7 over the document
(the `float`s nearest to them), of which that of B is the greatest, and `winnow_classify`
selects C, the class with 0.7, and inserts its symbol: `sum` and `count` are not reset
between classes, so B is compared with (0.4 + 0.9) / 2 and C with (0.4 + 0.9 + 0.7) / 3,
which is above it. -/
theorem winnow_classify_three_classes :
    class_score abc_pool "/a" one_token = flt 2 5 ∧
      class_score abc_pool "/b" one_token = flt 9 10 ∧
      class_score abc_pool "/c" one_token = flt 7 10 ∧
      fp.lt (class_score abc_pool "/a" one_token) (class_score abc_pool "/b" one_token) = true ∧
      fp.lt (class_score abc_pool "/c" one_token) (class_score abc_pool "/b" one_token) = true ∧
      (∀ c ∈ abc_ctx.cfg.statfiles, usable abc_pool c.path = true) ∧
      (winnow_classify abc_ctx abc_pool one_token 0).sel = some ⟨"C", "/c", 1024⟩ ∧
      (winnow_classify abc_ctx abc_pool one_token 0).inserted = some ("default", "C", 1) :=
  ⟨abc_scores.1, abc_scores.2.1, abc_scores.2.2.1, abc_scores.2.2.2.1, abc_scores.2.2.2.2,
    by simp [abc_ctx, usable, abc_pool], abc_selects.1, abc_selects.2⟩

/-- Claim C2. Tie-break: the two classes X and Y have stores with the same weights (weights
that 104 and 8 promotions of an unseen block leave), hence the same own score over the
document of two tokens, and both stores open; `winnow_classify` selects Y, the class listed
second: X is compared as its own score, Y as the never-reset `double` sum over both
classes divided by 4, which is rounded to a value above the score of X. -/
theorem winnow_classify_tie_selects_second :
    class_score xy_pool "/x" two_tokens = class_score xy_pool "/y" two_tokens ∧
      (∀ c ∈ xy_ctx.cfg.statfiles, usable xy_pool c.path = true) ∧
      (learn_update (learn_factor 1))^[104] fp.zero = xy_pool.weight "/x" 1 2 ∧
      (learn_update (learn_factor 1))^[8] fp.zero = xy_pool.weight "/x" 3 4 ∧
      classify_res two_tokens (classify_init xy_pool 0) ⟨"X", "/x", 1024⟩ =
        some (fp.fin false 4696366360536359 (-22)) ∧
      (winnow_classify xy_ctx xy_pool two_tokens 0).max = fp.fin false 587045795067045 (-19) ∧
      (winnow_classify xy_ctx xy_pool two_tokens 0).sel = some ⟨"Y", "/y", 1024⟩ ∧
      (winnow_classify xy_ctx xy_pool two_tokens 0).inserted = some ("default", "Y", 1) :=
  ⟨xy_scores.1, by simp [xy_ctx, usable, xy_pool], xy_reachable.1, xy_reachable.2, xy_first,
    xy_selects.2.2, xy_selects.1, xy_selects.2.1⟩

/-- Claim C3. Empty document: for every config and every pool `winnow_classify` selects no class
and inserts no result; the maximum stays at its initial value 0. -/
theorem winnow_classify_empty_document (ctx : classifier_ctx) (pool : statfile_pool_t)
    (now : Nat) :
    (winnow_classify ctx pool [] now).sel = none ∧
      (winnow_classify ctx pool [] now).inserted = none ∧
      (winnow_classify ctx pool [] now).max = fp.zero := by
  have hsel : (winnow_classify ctx pool [] now).sel = none := by
    rw [(winnow_classify_spec ctx pool [] now).2.1]
    exact (score_fold_empty pool ctx.cfg.statfiles score_init rfl rfl rfl).1
  have hmax : (winnow_classify ctx pool [] now).max = fp.zero := by
    rw [(winnow_classify_spec ctx pool [] now).2.2.1]
    exact (score_fold_empty pool ctx.cfg.statfiles score_init rfl rfl rfl).2
  refine ⟨hsel, ?_, hmax⟩
  have : (winnow_classify ctx pool [] now).inserted =
      (winnow_classify ctx pool [] now).sel.map (fun st => (ctx.cfg.metric, st.symbol, 1)) :=
    rfl
  rw [this, hsel]; rfl

/-- Counterexample of C4: promoting the token of weight `0.9f` in the store of B stores the
`float` 9286189 * 2 ^ -23, which is not 1.23 times the weight read; and promoting an unseen
token in the store of A stores the `float` 2579497 * 2 ^ -21, which is not 1.23. -/
theorem winnow_learn_update_rule_counterexample :
    (winnow_learn 16 abc_ctx abc_pool "B" one_token 1 0).weight "/b" 1 2 =
        fp.fin false 9286189 (-23) ∧
      ((winnow_learn 16 abc_ctx abc_pool "B" one_token 1 0).weight "/b" 1 2).value ≠
        (abc_pool.weight "/b" 1 2).value * (123 / 100) ∧
      fp.lt (abcd_pool.weight "/a" 1 2) NOT_FOUND = true ∧
      (winnow_learn 16 abcd_ctx abcd_pool "A" one_token 1 0).weight "/a" 1 2 =
        fp.fin false 2579497 (-21) ∧
      ((winnow_learn 16 abcd_ctx abcd_pool "A" one_token 1 0).weight "/a" 1 2).value ≠
        123 / 100 := by
  have hb : abc_pool.weight "/b" 1 2 = fp.fin false 7549747 (-23) := by decide
  have ha : (winnow_learn 16 abcd_ctx abcd_pool "A" one_token 1 0).weight "/a" 1 2 =
      fp.fin false 2579497 (-21) := by
    rw [winnow_learn_step 16 abcd_ctx abcd_pool "A" one_token 1 0 "/a" abcd_acquired_a
      one_token_nodup ⟨1, 2⟩ one_token_mem]
    decide
  refine ⟨abc_promoted, ?_, abcd_unseen "/a" 1 2, ha, ?_⟩
  · rw [abc_promoted, hb]
    simp only [fp.value]
    norm_num
  · rw [ha]
    simp only [fp.value]
    norm_num

/-- Claim C4 (amended). Update rule: after a call of `winnow_learn` that acquires its store
`file`, for every token of a document of distinct tokens the stored weight is the `float`
product of the weight read before the call and the factor `c`, the `float` nearest to 1.23
(`in_class` non-zero) or to 0.83 (otherwise), and it is `c` itself when the read is below
0.00001. -/
theorem winnow_learn_update_rule (block_size : Nat) (ctx : classifier_ctx)
    (pool : statfile_pool_t) (symbol : String) (input : List token_node_t) (in_class : Int)
    (now : Nat) (file : String)
    (hacq : (learn_loop block_size symbol ctx.cfg.statfiles pool).2 = some (some file))
    (hnd : input.Nodup) (n : token_node_t) (hn : n ∈ input) :
    (winnow_learn block_size ctx pool symbol input in_class now).weight file n.h1 n.h2 =
        (if fp.lt (pool.weight file n.h1 n.h2) NOT_FOUND then
          fp.to_float (if in_class ≠ 0 then WINNOW_PROMOTION else WINNOW_DEMOTION)
        else fp.mul32 (pool.weight file n.h1 n.h2)
          (fp.to_float (if in_class ≠ 0 then WINNOW_PROMOTION else WINNOW_DEMOTION))) ∧
      fp.to_float WINNOW_PROMOTION = fp.fin false 2579497 (-21) ∧
      fp.to_float WINNOW_DEMOTION = fp.fin false 13925089 (-24) := by
  refine ⟨?_, by decide, by decide⟩
  rw [winnow_learn_step block_size ctx pool symbol input in_class now file hacq hnd n hn]
  rfl

/-- Witness of C4: promoting the token of weight `0.9f` in the store of B stores the
`float` product of `0.9f` and `1.23f`. -/
theorem winnow_learn_update_rule_witness :
    (winnow_learn 16 abc_ctx abc_pool "B" one_token 1 0).weight "/b" 1 2 =
      fp.fin false 9286189 (-23) := by
  have h := (winnow_learn_update_rule 16 abc_ctx abc_pool "B" one_token 1 0 "/b" (by decide)
    (by simp [one_token]) ⟨1, 2⟩ (by simp [one_token])).1
  rw [h]
  decide

/-- Claim C5. Unknown symbol: a call of `winnow_learn` with a symbol that no class of the config
carries returns the pool as it was: no weight changes and no call is made to the pool. -/
theorem winnow_learn_unknown_symbol (block_size : Nat) (ctx : classifier_ctx)
    (pool : statfile_pool_t) (symbol : String) (input : List token_node_t) (in_class : Int)
    (now : Nat) (h : ∀ st ∈ ctx.cfg.statfiles, symbol ≠ st.symbol) :
    winnow_learn block_size ctx pool symbol input in_class now = pool := by
  have hcl : learn_class symbol ctx.cfg.statfiles = none := by
    unfold learn_class
    rw [List.find?_eq_none]
    intro st hst
    simpa using h st hst
  rw [winnow_learn_eq, learn_loop_eq, hcl]

/-- Witness of C5: no class of the example carries the symbol Z. -/
theorem winnow_learn_unknown_symbol_witness :
    winnow_learn 16 abc_ctx abc_pool "Z" one_token 1 0 = abc_pool :=
  winnow_learn_unknown_symbol 16 abc_ctx abc_pool "Z" one_token 1 0 (by simp [abc_ctx])

/-- Claim C6. Create cycle: when the open of the matched class's store fails, `winnow_learn`
makes one create; when the create fails it returns at once, leaving the pool as it was but
for the two recorded calls; when the create succeeds it makes one more open, and when that
open fails it returns with every weight of every store and the set of locks unchanged;
when that open succeeds the rest of the trace is the lock, block reads and writes, and the
unlock (no further create or open). -/
theorem winnow_learn_create_cycle (block_size : Nat) (ctx : classifier_ctx)
    (pool : statfile_pool_t) (symbol : String) (input : List token_node_t) (in_class : Int)
    (now : Nat) (st : statfile)
    (hcl : learn_class symbol ctx.cfg.statfiles = some st)
    (hfail : (statfile_pool_open pool st.path).1 = none) :
    ((statfile_pool_create (statfile_pool_open pool st.path).2 st.path
          (st.size / block_size)).1 = -1 →
      winnow_learn block_size ctx pool symbol input in_class now =
        { pool with trace := pool.trace ++
            [Op.open_file st.path, Op.create st.path (st.size / block_size)] }) ∧
    ((statfile_pool_create (statfile_pool_open pool st.path).2 st.path
          (st.size / block_size)).1 ≠ -1 →
      (statfile_pool_open (statfile_pool_create (statfile_pool_open pool st.path).2 st.path
          (st.size / block_size)).2 st.path).1 = none →
      (winnow_learn block_size ctx pool symbol input in_class now).trace = pool.trace ++
          [Op.open_file st.path, Op.create st.path (st.size / block_size),
            Op.open_file st.path] ∧
        (∀ p h1 h2, (winnow_learn block_size ctx pool symbol input in_class now).weight p h1 h2 =
          pool.weight p h1 h2) ∧
        (winnow_learn block_size ctx pool symbol input in_class now).locked = pool.locked) ∧
    ((statfile_pool_create (statfile_pool_open pool st.path).2 st.path
          (st.size / block_size)).1 ≠ -1 →
      (statfile_pool_open (statfile_pool_create (statfile_pool_open pool st.path).2 st.path
          (st.size / block_size)).2 st.path).1 ≠ none →
      ∃ ops : List Op,
        (winnow_learn block_size ctx pool symbol input in_class now).trace = pool.trace ++
          [Op.open_file st.path, Op.create st.path (st.size / block_size),
            Op.open_file st.path, Op.lock_file st.path] ++ ops ++ [Op.unlock_file st.path] ∧
        ∀ op ∈ ops, op.on_block st.path = true) := by
  have ho := open_none pool st.path hfail
  have hloop : learn_loop block_size symbol ctx.cfg.statfiles pool =
      learn_acquire block_size st pool := by rw [learn_loop_eq, hcl]
  obtain ⟨ct, cl, -, cw⟩ := create_frame (pool.log (Op.open_file st.path)) st.path
    (st.size / block_size)
  rw [ho]
  refine ⟨?_, ?_, ?_⟩
  · intro hc
    have e : learn_acquire block_size st pool =
        ((statfile_pool_create (pool.log (Op.open_file st.path)) st.path
          (st.size / block_size)).2, none) := by
      simp only [learn_acquire, hfail, ho, hc, if_true]
    rw [winnow_learn_not_acquired _ _ _ _ _ _ _ (by rw [hloop, e]; simp), hloop, e]
    simp only
    rw [create_failed _ _ _ hc]
    simp [statfile_pool_t.log]
  · intro hc h2
    have e : learn_acquire block_size st pool =
        ((statfile_pool_open (statfile_pool_create (pool.log (Op.open_file st.path)) st.path
          (st.size / block_size)).2 st.path).2, none) := by
      simp only [learn_acquire, hfail, ho, if_neg hc, h2]
    rw [winnow_learn_not_acquired _ _ _ _ _ _ _ (by rw [hloop, e]; simp), hloop, e]
    simp only
    rw [open_none _ _ h2]
    refine ⟨?_, ?_, ?_⟩
    · rw [trace_log, ct, trace_log]; simp
    · intro p h1 h2
      rw [weight_log, cw, weight_log]
    · rw [locked_log, cl, locked_log]
  · intro hc h2
    have e : learn_acquire block_size st pool =
        ((statfile_pool_open (statfile_pool_create (pool.log (Op.open_file st.path)) st.path
          (st.size / block_size)).2 st.path).2, some (some st.path)) := by
      have h3 := open_some _ _ h2
      simp only [learn_acquire, hfail, ho, if_neg hc]
      rw [h3]
    have hacq : (learn_loop block_size symbol ctx.cfg.statfiles pool).2 =
        some (some st.path) := by rw [hloop, e]
    obtain ⟨ops, t1, t2⟩ := winnow_learn_trace block_size ctx pool symbol input in_class now
      st.path hacq
    refine ⟨ops, ?_, t2⟩
    rw [t1, hloop, e]
    simp only
    rw [open_some _ _ h2]
    simp only
    rw [trace_log, ct, trace_log]; simp

/-- Witness of C6: the store of C cannot be created, the store of D can be created and
cannot be opened. -/
theorem winnow_learn_create_cycle_witness :
    (winnow_learn 16 abcd_ctx abcd_pool "C" one_token 1 0).trace =
        [Op.open_file "/c", Op.create "/c" 64] ∧
      (winnow_learn 16 abcd_ctx abcd_pool "D" one_token 1 0).trace =
        [Op.open_file "/d", Op.create "/d" 64, Op.open_file "/d"] ∧
      (winnow_learn 16 abcd_ctx abcd_pool "D" one_token 1 0).locked = [] := by
  have hc := (winnow_learn_create_cycle 16 abcd_ctx abcd_pool "C" one_token 1 0
    ⟨"C", "/c", 1024⟩ (by decide) (by decide)).1 (by decide)
  have hd := (winnow_learn_create_cycle 16 abcd_ctx abcd_pool "D" one_token 1 0
    ⟨"D", "/d", 1024⟩ (by decide) (by decide)).2.1 (by decide) (by decide)
  refine ⟨?_, hd.1, hd.2.2⟩
  rw [hc]; rfl

/-- Claim C7. Frame of learn: a call of `winnow_learn` leaves every store other than the store of
the matched class as it was (every store when no class matches), and in the store of the
matched class every block whose token is not in the document keeps its weight. -/
theorem winnow_learn_frame (block_size : Nat) (ctx : classifier_ctx)
    (pool : statfile_pool_t) (symbol : String) (input : List token_node_t) (in_class : Int)
    (now : Nat) :
    (∀ p, (∀ st, learn_class symbol ctx.cfg.statfiles = some st → p ≠ st.path) →
      (winnow_learn block_size ctx pool symbol input in_class now).files p = pool.files p) ∧
    (∀ st, learn_class symbol ctx.cfg.statfiles = some st → ∀ h1 h2,
      (⟨h1, h2⟩ : token_node_t) ∉ input →
      (winnow_learn block_size ctx pool symbol input in_class now).weight st.path h1 h2 =
        pool.weight st.path h1 h2) := by
  cases hcl : learn_class symbol ctx.cfg.statfiles with
  | none =>
    have e : winnow_learn block_size ctx pool symbol input in_class now = pool := by
      rw [winnow_learn_eq, learn_loop_eq, hcl]
    rw [e]
    exact ⟨fun _ _ => rfl, fun _ h => by cases h⟩
  | some st =>
    have hloop : learn_loop block_size symbol ctx.cfg.statfiles pool =
        learn_acquire block_size st pool := by rw [learn_loop_eq, hcl]
    obtain ⟨-, -, -, a4, a5, -, -, -, -⟩ := learn_acquire_spec block_size st pool
    by_cases hacq : ∃ file,
        (learn_loop block_size symbol ctx.cfg.statfiles pool).2 = some (some file)
    · obtain ⟨file, hacq⟩ := hacq
      obtain ⟨st2, hcl2, hpath, -⟩ := learn_loop_some block_size symbol _ pool file hacq
      rw [hcl] at hcl2
      have hst : st = st2 := Option.some.inj hcl2
      subst hst
      obtain ⟨w1, w2, -, -⟩ :=
        winnow_learn_acquired block_size ctx pool symbol input in_class now file hacq
      refine ⟨?_, ?_⟩
      · intro p hp
        exact w2 p (by rw [← hpath]; exact hp st rfl)
      · intro st3 h3 h1 h2 hnot
        have hst : st = st3 := Option.some.inj h3
        subst hst
        rw [hpath, w1 h1 h2, List.count_eq_zero_of_not_mem hnot, Function.iterate_zero, id]
    · have hno : ∀ file,
          (learn_loop block_size symbol ctx.cfg.statfiles pool).2 ≠ some (some file) :=
        fun file h => hacq ⟨file, h⟩
      rw [winnow_learn_not_acquired _ _ _ _ _ _ _ hno, hloop]
      refine ⟨?_, ?_⟩
      · intro p hp
        exact a4 p (hp st rfl)
      · intro st3 _ h1 h2 _
        exact a5 st3.path h1 h2

/-- Witness of C7: learning B leaves the store of A and the other blocks of the store of B
as they were. -/
theorem winnow_learn_frame_witness :
    (winnow_learn 16 abc_ctx abc_pool "B" one_token 1 0).files "/a" = abc_pool.files "/a" ∧
      (winnow_learn 16 abc_ctx abc_pool "B" one_token 1 0).weight "/b" 3 4 = flt 9 10 := by
  have h := winnow_learn_frame 16 abc_ctx abc_pool "B" one_token 1 0
  refine ⟨h.1 "/a" ?_, ?_⟩
  · intro st hst
    have : st = ⟨"B", "/b", 1024⟩ := by
      have h2 : learn_class "B" abc_ctx.cfg.statfiles = some ⟨"B", "/b", 1024⟩ := by decide
      rw [h2] at hst; exact (Option.some.inj hst).symm
    rw [this]; decide
  · rw [h.2 ⟨"B", "/b", 1024⟩ (by decide) 3 4 (by simp [one_token])]
    simp [abc_pool, statfile_pool_t.weight]

/-- Claim C8. Read-only classify: the calls `winnow_classify` makes to the pool are `is_open`,
`open` and `get_block` calls only, and every store, every weight and the set of locks are
the same after the call as before. -/
theorem winnow_classify_read_only (ctx : classifier_ctx) (pool : statfile_pool_t)
    (input : List token_node_t) (now : Nat) :
    (∃ ops : List Op,
      (winnow_classify ctx pool input now).pool.trace = pool.trace ++ ops ∧
      ∀ op ∈ ops, (∃ p, op = Op.is_open p) ∨ (∃ p, op = Op.open_file p) ∨
        ∃ f h1 h2 t, op = Op.get_block f h1 h2 t) ∧
    (winnow_classify ctx pool input now).pool.files = pool.files ∧
    (∀ p h1 h2, (winnow_classify ctx pool input now).pool.weight p h1 h2 =
      pool.weight p h1 h2) ∧
    (winnow_classify ctx pool input now).pool.locked = pool.locked := by
  have h := (winnow_classify_spec ctx pool input now).1
  obtain ⟨ops, h1, h2⟩ := h.trace
  refine ⟨⟨ops, h1, ?_⟩, h.files, ?_, h.locked⟩
  · intro op hop
    have := h2 op hop
    cases op with
    | is_open p => exact Or.inl ⟨p, rfl⟩
    | open_file p => exact Or.inr (Or.inl ⟨p, rfl⟩)
    | get_block f a b t => exact Or.inr (Or.inr ⟨f, a, b, t, rfl⟩)
    | create p n => simp [Op.reads] at this
    | set_block f a b t v => simp [Op.reads] at this
    | lock_file f => simp [Op.reads] at this
    | unlock_file f => simp [Op.reads] at this
  · intro p a b
    exact weight_of_files _ _ p (by rw [h.files]) a b

/-- Counterexample of C9: the store of B is created by the first call; after one promotion
of the unseen token its weight is the `float` 2579497 * 2 ^ -21, not 1.23, after two it is
12691125 * 2 ^ -23, not 1.5129, and after 429 it is `+inf`. -/
theorem winnow_learn_promotions_counterexample :
    fp.lt (abcd_pool.weight "/b" 1 2) NOT_FOUND = true ∧
      ((winnow_learn_calls 16 abcd_ctx "B" one_token 1 [0] abcd_pool).weight "/b" 1 2).value ≠
        (123 / 100) ^ 1 ∧
      ((winnow_learn_calls 16 abcd_ctx "B" one_token 1 [0, 1] abcd_pool).weight "/b" 1 2).value ≠
        (123 / 100) ^ 2 ∧
      (winnow_learn_calls 16 abcd_ctx "B" one_token 1 (List.replicate 429 0) abcd_pool).weight
        "/b" 1 2 = fp.inf false := by
  refine ⟨abcd_unseen "/b" 1 2, ?_, ?_, ?_⟩
  · rw [abcd_promoted [] 0]
    simp only [List.length_nil, Function.iterate_zero, id_eq, fp.value]
    norm_num
  · rw [abcd_promoted [1] 0]
    simp only [List.length_singleton, Function.iterate_one, promote_two, fp.value]
    norm_num
  · have h : List.replicate 429 0 = 0 :: List.replicate 428 0 := rfl
    rw [h, abcd_promoted (List.replicate 428 0) 0, List.length_replicate]
    exact promote_overflow 428 (le_refl _)

/-- Claim C9 (amended). Promotion: after `n >= 1` successive calls of `winnow_learn` with a
non-zero `in_class` for the same class, on the document of one token whose block was unseen
in the store of the class, the stored weight of the block is the `float` nearest to 1.23
multiplied `n - 1` times by itself in `float` arithmetic, every product rounded to `float`;
from the 429th call on it is `+inf`. -/
theorem winnow_learn_promotions (block_size : Nat) (ctx : classifier_ctx)
    (pool : statfile_pool_t) (symbol : String) (f1 : token_node_t) (in_class : Int)
    (file : String) (nows : List Nat) (hin : in_class ≠ 0)
    (hacq : (learn_loop block_size symbol ctx.cfg.statfiles pool).2 = some (some file))
    (hunseen : fp.lt (pool.weight file f1.h1 f1.h2) NOT_FOUND = true) (hn : nows ≠ []) :
    (winnow_learn_calls block_size ctx symbol [f1] in_class nows pool).weight file
        f1.h1 f1.h2 =
        (fun v => fp.mul32 v (fp.to_float WINNOW_PROMOTION))^[nows.length - 1]
          (fp.to_float WINNOW_PROMOTION) ∧
      fp.to_float WINNOW_PROMOTION = fp.fin false 2579497 (-21) ∧
      (429 ≤ nows.length →
        (winnow_learn_calls block_size ctx symbol [f1] in_class nows pool).weight file
          f1.h1 f1.h2 = fp.inf false) := by
  have hc : fp.to_float WINNOW_PROMOTION = fp.fin false 2579497 (-21) := by decide
  cases nows with
  | nil => exact absurd rfl hn
  | cons now nows =>
    have hw : (winnow_learn_calls block_size ctx symbol [f1] in_class (now :: nows)
        pool).weight file f1.h1 f1.h2 =
        (fun v => fp.mul32 v (fp.fin false 2579497 (-21)))^[nows.length]
          (fp.fin false 2579497 (-21)) := by
      rw [calls_iterate block_size ctx symbol [f1] in_class file (by simp) f1 (by simp)
        (now :: nows) pool hacq, List.length_cons, iterate_unseen _ _ _ hunseen,
        learn_factor_promote in_class hin, (promote_iterate nows.length).1]
    refine ⟨?_, hc, ?_⟩
    · rw [hw, hc]; rfl
    · intro h429
      rw [hw]
      simp only [List.length_cons] at h429
      exact promote_overflow nows.length (by omega)

/-- Witness of C9: two promotions of an unseen token in the store of B, which the first
call creates, leave the `float` square of `1.23f`. -/
theorem winnow_learn_promotions_witness :
    (winnow_learn_calls 16 abcd_ctx "B" [⟨1, 2⟩] 1 [0, 1] abcd_pool).weight "/b" 1 2 =
      fp.fin false 12691125 (-23) := by
  have h := (winnow_learn_promotions 16 abcd_ctx abcd_pool "B" ⟨1, 2⟩ 1 "/b" [0, 1]
    (by decide) (by decide) (abcd_unseen "/b" 1 2) (by simp)).1
  rw [h]
  decide

/-- Claim C10. Demotion never reaches zero: after `n >= 1` successive calls of `winnow_learn`
with `in_class = 0` for the same class, on a document that contains a token whose block
was unseen in the store of the class, the stored weight of that block is positive. -/
theorem winnow_learn_demotions_positive (block_size : Nat) (ctx : classifier_ctx)
    (pool : statfile_pool_t) (symbol : String) (input : List token_node_t)
    (n : token_node_t) (file : String) (nows : List Nat)
    (hacq : (learn_loop block_size symbol ctx.cfg.statfiles pool).2 = some (some file))
    (hmem : n ∈ input) (hunseen : fp.lt (pool.weight file n.h1 n.h2) NOT_FOUND = true)
    (hn : nows ≠ []) :
    fp.lt fp.zero
      ((winnow_learn_calls block_size ctx symbol input 0 nows pool).weight file n.h1 n.h2) =
        true :=
  calls_positive block_size ctx symbol input 0 file n hmem nows pool hacq
    (unseen_ne_nan _ hunseen) hn

/-- Witness of C10: three demotions of an unseen token in the store of A. -/
theorem winnow_learn_demotions_positive_witness :
    fp.lt fp.zero
      ((winnow_learn_calls 16 abcd_ctx "A" [⟨1, 2⟩, ⟨3, 4⟩] 0 [0, 1, 2] abcd_pool).weight
        "/a" 3 4) = true :=
  winnow_learn_demotions_positive 16 abcd_ctx abcd_pool "A" [⟨1, 2⟩, ⟨3, 4⟩] ⟨3, 4⟩ "/a"
    [0, 1, 2] (by decide) (by simp) (abcd_unseen "/a" 3 4) (by simp)

/-- Claim C11. Unseen-token default in scoring: `classify_callback` adds 1 to `count` for
every token, and adds to `sum` 1 when the read of the block is below 0.00001 and the value
read otherwise. So for a config of a single class whose store opens and a document of
fewer than `2 ^ 31` tokens (the range of `count`), `winnow_classify` reads the block of
every token, and ends with `sum` the `double` sum of these values and `count` the number
of tokens; and when the store holds no weight for any token of the document, which is not
empty, `sum` is the number of tokens, the score, which becomes the maximum, is exactly 1.0,
and the class is selected. -/
theorem winnow_classify_unseen_default (ctx : classifier_ctx) (pool : statfile_pool_t)
    (input : List token_node_t) (now : Nat) (st : statfile)
    (hcfg : ctx.cfg.statfiles = [st]) (hopen : usable pool st.path = true)
    (hlen : input.length < 2 ^ 31) :
    (∀ (node : token_node_t) (p : statfile_pool_t) (cd : winnow_callback_data)
        (file : String), cd.file = some file →
      (classify_callback node (p, cd)).2.count = int_incr cd.count ∧
      (0 ≤ cd.count → cd.count < 2147483647 →
        (classify_callback node (p, cd)).2.count = cd.count + 1) ∧
      (classify_callback node (p, cd)).2.sum = fp.add64 cd.sum
        (if fp.lt (statfile_pool_get_block p file node.h1 node.h2 cd.now).1 NOT_FOUND then
          fp.of_int 1
        else (statfile_pool_get_block p file node.h1 node.h2 cd.now).1)) ∧
    (winnow_classify ctx pool input now).pool.trace = pool.trace ++
      (Op.is_open st.path :: if st.path ∈ pool.opened then [] else [Op.open_file st.path]) ++
      input.map (fun n => Op.get_block st.path n.h1 n.h2 now) ∧
    (winnow_classify ctx pool input now).data.sum =
      input.foldl (fun acc n => fp.add64 acc
        (if fp.lt (pool.weight st.path n.h1 n.h2) NOT_FOUND then fp.of_int 1
          else pool.weight st.path n.h1 n.h2)) fp.zero ∧
    (winnow_classify ctx pool input now).data.count = (input.length : Int) ∧
    (input ≠ [] →
      (∀ n ∈ input, fp.lt (pool.weight st.path n.h1 n.h2) NOT_FOUND = true) →
      (winnow_classify ctx pool input now).data.sum = fp.of_int (input.length : Int) ∧
      (winnow_classify ctx pool input now).max = fp.fin false 1 0 ∧
      classify_res input (classify_init pool now) st = some (fp.fin false 1 0) ∧
      (winnow_classify ctx pool input now).sel = some st ∧
      (winnow_classify ctx pool input now).inserted =
        some (ctx.cfg.metric, st.symbol, 1)) := by
  have hcount : count_add 0 input.length = (input.length : Int) :=
    count_add_zero _ (by simpa using hlen)
  have hpool : (winnow_classify ctx pool input now).pool =
      (classify_step input (classify_init pool now) st).pool := by
    simp only [winnow_classify, hcfg, List.foldl_cons, List.foldl_nil]
  have hdata : (winnow_classify ctx pool input now).data =
      (classify_step input (classify_init pool now) st).data := by
    simp only [winnow_classify, hcfg, List.foldl_cons, List.foldl_nil]
  obtain ⟨u1, u2, u3⟩ := classify_step_usable pool input (classify_init pool now) st
    (reads_only_init pool now) hopen
  refine ⟨?_, ?_, ?_, ?_, ?_⟩
  · intro node p cd file hf
    by_cases hv : fp.lt (p.weight file node.h1 node.h2) NOT_FOUND = true
    · refine ⟨?_, ?_, ?_⟩
      · simp [classify_callback, hf, statfile_pool_get_block, hv]
      · intro h0 h1
        have : int_incr cd.count = cd.count + 1 := by unfold int_incr; omega
        simp [classify_callback, hf, statfile_pool_get_block, hv, this]
      · simp [classify_callback, hf, statfile_pool_get_block, hv]
    · refine ⟨?_, ?_, ?_⟩
      · simp [classify_callback, hf, statfile_pool_get_block, hv]
      · intro h0 h1
        have : int_incr cd.count = cd.count + 1 := by unfold int_incr; omega
        simp [classify_callback, hf, statfile_pool_get_block, hv, this]
      · simp [classify_callback, hf, statfile_pool_get_block, hv]
  · rw [hpool, u1]; rfl
  · rw [hdata, u2]; rfl
  · rw [hdata, u3]; exact hcount
  · intro hne hunseen
    have hm0 : input.length ≠ 0 := fun h => hne (List.length_eq_zero.1 h)
    have hcne : (input.length : Int) ≠ 0 := by exact_mod_cast hm0
    have hsum : class_add pool st.path input fp.zero = fp.of_int (input.length : Int) := by
      have h := class_add_unseen pool st.path input hunseen 0 (by
        have : (2 : Nat) ^ 31 < 2 ^ 53 := by norm_num
        omega)
      have h0 : fp.of_int ((0 : Nat) : Int) = fp.zero := by decide
      rw [h0] at h
      rw [h]
      congr 2
      omega
    have hres : score_res (class_add pool st.path input fp.zero) (count_add 0 input.length) =
        fp.fin false 1 0 := by
      rw [hsum, hcount, score_res, if_pos hcne, div64_self _ hm0]
    have hlt : fp.lt fp.zero (fp.fin false 1 0) = true := by decide
    have hstep : score_step pool input score_init st =
        { sum := fp.of_int (input.length : Int), count := (input.length : Int),
          max := fp.fin false 1 0, sel := some st } := by
      simp only [score_step, hopen, if_true, score_init, hres, hlt]
      rw [hsum, hcount]
    obtain ⟨-, s1, s2, s3, -⟩ := winnow_classify_spec ctx pool input now
    rw [hcfg, List.foldl_cons, List.foldl_nil, hstep] at s1 s2 s3
    refine ⟨s3, s2, ?_, s1, ?_⟩
    · rw [classify_res_spec pool input _ st (reads_only_init pool now), if_pos hopen]
      simp only [classify_init]
      rw [hres]
    · rw [winnow_classify_inserted, s1]; rfl

/-- Witness of C11: the store of A exists and is empty. -/
theorem winnow_classify_unseen_default_witness :
    (winnow_classify a_ctx abcd_pool two_tokens 0).pool.trace =
        [Op.is_open "/a", Op.open_file "/a", Op.get_block "/a" 1 2 0, Op.get_block "/a" 3 4 0] ∧
      (winnow_classify a_ctx abcd_pool two_tokens 0).data.sum = fp.of_int 2 ∧
      (winnow_classify a_ctx abcd_pool two_tokens 0).data.count = 2 ∧
      (winnow_classify a_ctx abcd_pool two_tokens 0).max = fp.fin false 1 0 ∧
      (winnow_classify a_ctx abcd_pool two_tokens 0).sel = some ⟨"A", "/a", 1024⟩ :=
  have h := winnow_classify_unseen_default a_ctx abcd_pool two_tokens 0 ⟨"A", "/a", 1024⟩ rfl
    (by simp [usable, abcd_pool]) (by simp [two_tokens])
  have h2 := h.2.2.2.2 (by simp [two_tokens]) (fun n _ => abcd_unseen "/a" n.h1 n.h2)
  ⟨h.2.1, h2.1, h.2.2.2.1, h2.2.1, h2.2.2.2.1⟩

/-- Claim C12. Skipping unusable classes: `winnow_classify` selects (and inserts) the same
class as on the config from which every class is removed whose store can be neither found
open nor opened, and it never selects such a class. -/
theorem winnow_classify_skips_unusable (ctx : classifier_ctx) (pool : statfile_pool_t)
    (input : List token_node_t) (now : Nat) :
    (winnow_classify ctx pool input now).sel =
        (winnow_classify
          { cfg := { ctx.cfg with
              statfiles := ctx.cfg.statfiles.filter (fun st => usable pool st.path) } }
          pool input now).sel ∧
      (winnow_classify ctx pool input now).inserted =
        (winnow_classify
          { cfg := { ctx.cfg with
              statfiles := ctx.cfg.statfiles.filter (fun st => usable pool st.path) } }
          pool input now).inserted ∧
      ∀ st, (winnow_classify ctx pool input now).sel = some st →
        (statfile_pool_is_open pool st.path).1 ≠ none ∨
          (statfile_pool_open pool st.path).1 ≠ none := by
  have hsel : (winnow_classify ctx pool input now).sel =
      (winnow_classify
        { cfg := { ctx.cfg with
            statfiles := ctx.cfg.statfiles.filter (fun st => usable pool st.path) } }
        pool input now).sel := by
    rw [(winnow_classify_spec ctx pool input now).2.1,
      (winnow_classify_spec _ pool input now).2.1]
    exact congrArg score_state.sel
      (score_fold_filter pool input ctx.cfg.statfiles score_init).symm
  refine ⟨hsel, ?_, ?_⟩
  · have e1 : (winnow_classify ctx pool input now).inserted =
        (winnow_classify ctx pool input now).sel.map
          (fun st => (ctx.cfg.metric, st.symbol, 1)) := rfl
    rw [e1, hsel]; rfl
  · intro st hst
    rw [(winnow_classify_spec ctx pool input now).2.1] at hst
    rw [← usable_iff]
    exact score_fold_sel_usable pool input ctx.cfg.statfiles score_init
      (fun c hc => by simp [score_init] at hc) st hst

/-- Claim C14. Lock discipline of learn: in a call of `winnow_learn` that acquires its
store, the calls to the pool are opens and creates of that store (the acquisition), then
one lock of the store, then for the tokens of the document in order a `get_block` and a
`set_block` on the store, then one unlock of the store, and nothing else; so every
`set_block` is between the lock and the unlock, no other store is locked, and the set of
locks is afterwards what it was before. -/
theorem winnow_learn_lock_discipline (block_size : Nat) (ctx : classifier_ctx)
    (pool : statfile_pool_t) (symbol : String) (input : List token_node_t) (in_class : Int)
    (now : Nat) (file : String)
    (hacq : (learn_loop block_size symbol ctx.cfg.statfiles pool).2 = some (some file)) :
    ∃ (acq : List Op) (vals : List fp), vals.length = input.length ∧
      (winnow_learn block_size ctx pool symbol input in_class now).trace =
        pool.trace ++ acq ++ [Op.lock_file file] ++
          (input.zip vals).flatMap (fun nv =>
            [Op.get_block file nv.1.h1 nv.1.h2 now,
              Op.set_block file nv.1.h1 nv.1.h2 now nv.2]) ++
          [Op.unlock_file file] ∧
      (∀ op ∈ acq, op = Op.open_file file ∨ ∃ k, op = Op.create file k) ∧
      (winnow_learn block_size ctx pool symbol input in_class now).locked = pool.locked := by
  obtain ⟨st, -, hpath, hloop⟩ := learn_loop_some block_size symbol _ pool file hacq
  obtain ⟨acq, ha1, ha2⟩ := learn_acquire_ops block_size st pool
  obtain ⟨vals, hl, ht⟩ :=
    winnow_learn_pass block_size ctx pool symbol input in_class now file hacq
  obtain ⟨-, -, hlock, -⟩ :=
    winnow_learn_acquired block_size ctx pool symbol input in_class now file hacq
  refine ⟨acq, vals, hl, ?_, ?_, ?_⟩
  · rw [ht, hloop, ha1]; simp [learn_pass]
  · intro op hop
    rcases ha2 op hop with h | h
    · exact Or.inl (by rw [h, hpath])
    · exact Or.inr ⟨_, by rw [h, hpath]⟩
  · rw [hlock, List.erase_cons_head]

/-- Witness of C14: learning B on the three-class example; the store of B opens at once. -/
theorem winnow_learn_lock_discipline_witness :
    ∃ (acq : List Op) (vals : List fp), vals.length = two_tokens.length ∧
      (winnow_learn 16 abc_ctx abc_pool "B" two_tokens 1 7).trace =
        abc_pool.trace ++ acq ++ [Op.lock_file "/b"] ++
          (two_tokens.zip vals).flatMap (fun nv =>
            [Op.get_block "/b" nv.1.h1 nv.1.h2 7, Op.set_block "/b" nv.1.h1 nv.1.h2 7 nv.2]) ++
          [Op.unlock_file "/b"] ∧
      (∀ op ∈ acq, op = Op.open_file "/b" ∨ ∃ k, op = Op.create "/b" k) ∧
      (winnow_learn 16 abc_ctx abc_pool "B" two_tokens 1 7).locked = abc_pool.locked :=
  winnow_learn_lock_discipline 16 abc_ctx abc_pool "B" two_tokens 1 7 "/b" (by decide)

/-- Claim C15. First-match lookup: when the config is split at the first class `st` that
carries the symbol, `winnow_learn` does what it does on the config of the single class
`st`, whatever classes follow (also classes with the same symbol), and every call it makes
to the pool is about the store of `st`; this holds whether or not the store of `st` is
acquired. -/
theorem winnow_learn_first_match (block_size : Nat) (ctx : classifier_ctx)
    (pool : statfile_pool_t) (symbol : String) (input : List token_node_t) (in_class : Int)
    (now : Nat) (pre post : List statfile) (st : statfile)
    (hcfg : ctx.cfg.statfiles = pre ++ st :: post)
    (hpre : ∀ c ∈ pre, symbol ≠ c.symbol) (hst : symbol = st.symbol) :
    winnow_learn block_size ctx pool symbol input in_class now =
        winnow_learn block_size { cfg := { ctx.cfg with statfiles := [st] } } pool symbol
          input in_class now ∧
      (∃ ops : List Op,
        (winnow_learn block_size ctx pool symbol input in_class now).trace =
          pool.trace ++ ops ∧
        ∀ op ∈ ops, op.path = st.path) ∧
      ∀ p, p ≠ st.path →
        (winnow_learn block_size ctx pool symbol input in_class now).files p =
          pool.files p := by
  have hcl : learn_class symbol ctx.cfg.statfiles = some st := by
    rw [hcfg]; exact learn_class_split symbol pre post st hpre hst
  have hcl1 : learn_class symbol [st] = some st := by
    simpa using learn_class_split symbol [] [] st (fun c hc => by cases hc) hst
  have hloop : learn_loop block_size symbol ctx.cfg.statfiles pool =
      learn_loop block_size symbol [st] pool := by
    rw [learn_loop_eq, learn_loop_eq, hcl, hcl1]
  refine ⟨?_, winnow_learn_ops block_size ctx pool symbol input in_class now st hcl, ?_⟩
  · rw [winnow_learn_eq, winnow_learn_eq, hloop]
  · intro p hp
    obtain ⟨-, -, -, a4, -, -, -, -, -⟩ := learn_acquire_spec block_size st pool
    have hl2 : learn_loop block_size symbol ctx.cfg.statfiles pool =
        learn_acquire block_size st pool := by rw [learn_loop_eq, hcl]
    by_cases hacq : ∃ file,
        (learn_loop block_size symbol ctx.cfg.statfiles pool).2 = some (some file)
    · obtain ⟨file, hacq⟩ := hacq
      obtain ⟨st2, hcl2, hpath, -⟩ := learn_loop_some block_size symbol _ pool file hacq
      rw [hcl] at hcl2
      have hst2 : st = st2 := Option.some.inj hcl2
      subst hst2
      exact (winnow_learn_acquired block_size ctx pool symbol input in_class now file
        hacq).2.1 p (by rw [← hpath]; exact hp)
    · have hno : ∀ file,
          (learn_loop block_size symbol ctx.cfg.statfiles pool).2 ≠ some (some file) :=
        fun file h => hacq ⟨file, h⟩
      rw [winnow_learn_not_acquired _ _ _ _ _ _ _ hno, hl2]
      exact a4 p hp

/-- Witness of C15: two classes carry the symbol B; only the store of the first is used. -/
theorem winnow_learn_first_match_witness :
    (∃ ops : List Op,
      (winnow_learn 16 dup_ctx abc_pool "B" one_token 1 0).trace = abc_pool.trace ++ ops ∧
      ∀ op ∈ ops, op.path = "/b") ∧
      (winnow_learn 16 dup_ctx abc_pool "B" one_token 1 0).files "/c" = abc_pool.files "/c" :=
  have h := winnow_learn_first_match 16 dup_ctx abc_pool "B" one_token 1 0
    [⟨"A", "/a", 1024⟩] [⟨"B", "/c", 1024⟩] ⟨"B", "/b", 1024⟩ rfl (by simp) rfl
  ⟨h.2.1, h.2.2 "/c" (by decide)⟩

/-- Claim C16. Order independence of learn: for two iteration orders of the same document
(two lists that are permutations of each other), a call of `winnow_learn` that acquires its
store leaves the same weight in every block of every store. -/
theorem winnow_learn_order_independent (block_size : Nat) (ctx : classifier_ctx)
    (pool : statfile_pool_t) (symbol : String) (input1 input2 : List token_node_t)
    (in_class : Int) (now : Nat) (file : String) (hperm : input1.Perm input2)
    (hacq : (learn_loop block_size symbol ctx.cfg.statfiles pool).2 = some (some file)) :
    ∀ p h1 h2,
      (winnow_learn block_size ctx pool symbol input1 in_class now).weight p h1 h2 =
        (winnow_learn block_size ctx pool symbol input2 in_class now).weight p h1 h2 :=
  fun p h1 h2 => winnow_learn_perm_aux block_size ctx pool symbol input1 input2 in_class now
    file hperm hacq p h1 h2

/-- Witness of C16: the two orders of a document of two tokens. -/
theorem winnow_learn_order_independent_witness :
    (winnow_learn 16 abc_ctx abc_pool "B" [⟨1, 2⟩, ⟨3, 4⟩] 1 0).weight "/b" 1 2 =
      (winnow_learn 16 abc_ctx abc_pool "B" [⟨3, 4⟩, ⟨1, 2⟩] 1 0).weight "/b" 1 2 :=
  winnow_learn_order_independent 16 abc_ctx abc_pool "B" [⟨1, 2⟩, ⟨3, 4⟩] [⟨3, 4⟩, ⟨1, 2⟩]
    1 0 "/b" (List.Perm.swap _ _ _) (by decide) "/b" 1 2

/-- Counterexample of C17: the store of A exists and is empty; after 62 calls with
`in_class = 0` the weight of the token is the `float` 5284585 * 2 ^ -39, which is below
0.00001, and the 63rd call stores `0.83f`, which is not smaller. -/
theorem winnow_learn_demotions_decrease_counterexample :
    fp.lt (abcd_pool.weight "/a" 1 2) NOT_FOUND = true ∧
      (winnow_learn_calls 16 abcd_ctx "A" one_token 0 (List.replicate 62 0) abcd_pool).weight
        "/a" 1 2 = fp.fin false 5284585 (-39) ∧
      (winnow_learn_calls 16 abcd_ctx "A" one_token 0 (List.replicate 63 0) abcd_pool).weight
        "/a" 1 2 = fp.fin false 13925089 (-24) ∧
      fp.lt
        ((winnow_learn_calls 16 abcd_ctx "A" one_token 0 (List.replicate 63 0)
          abcd_pool).weight "/a" 1 2)
        ((winnow_learn_calls 16 abcd_ctx "A" one_token 0 (List.replicate 62 0)
          abcd_pool).weight "/a" 1 2) = false := by
  have h62 : (winnow_learn_calls 16 abcd_ctx "A" one_token 0 (List.replicate 62 0)
      abcd_pool).weight "/a" 1 2 = fp.fin false 5284585 (-39) := by
    have h : List.replicate 62 0 = 0 :: List.replicate 61 0 := rfl
    rw [h, abcd_demoted (List.replicate 61 0) 0, List.length_replicate, demote_62]
  have h63 : (winnow_learn_calls 16 abcd_ctx "A" one_token 0 (List.replicate 63 0)
      abcd_pool).weight "/a" 1 2 = fp.fin false 13925089 (-24) := by
    have h : List.replicate 63 0 = 0 :: List.replicate 62 0 := rfl
    rw [h, abcd_demoted (List.replicate 62 0) 0, List.length_replicate, demote_63]
  refine ⟨abcd_unseen "/a" 1 2, h62, h63, ?_⟩
  rw [h62, h63]
  exact demote_63_not_lt

/-- Claim C17 (amended). Repeated demotions of a block that starts unseen, on a document
of distinct tokens that contains its token: the first call with `in_class = 0` stores
`0.83f`, which is below 1.0; each of the calls 2 to 62 leaves a stored weight strictly
smaller than the one before it; the 63rd call reads a weight below 0.00001, takes it as
absent and stores `0.83f` again, which is not smaller than the weight before it. -/
theorem winnow_learn_demotions_decrease (block_size : Nat) (ctx : classifier_ctx)
    (pool : statfile_pool_t) (symbol : String) (input : List token_node_t)
    (n : token_node_t) (file : String)
    (hacq : (learn_loop block_size symbol ctx.cfg.statfiles pool).2 = some (some file))
    (hnd : input.Nodup) (hmem : n ∈ input)
    (hunseen : fp.lt (pool.weight file n.h1 n.h2) NOT_FOUND = true) :
    (∀ now : Nat,
      (winnow_learn_calls block_size ctx symbol input 0 [now] pool).weight file n.h1 n.h2 =
        fp.to_float WINNOW_DEMOTION ∧
      fp.lt ((winnow_learn_calls block_size ctx symbol input 0 [now] pool).weight file
        n.h1 n.h2) (fp.of_int 1) = true) ∧
    (∀ (nows : List Nat) (now : Nat), nows ≠ [] → nows.length < 62 →
      fp.lt
        ((winnow_learn_calls block_size ctx symbol input 0 (nows ++ [now]) pool).weight file
          n.h1 n.h2)
        ((winnow_learn_calls block_size ctx symbol input 0 nows pool).weight file
          n.h1 n.h2) = true) ∧
    (∀ (nows : List Nat) (now : Nat), nows.length = 62 →
      fp.lt ((winnow_learn_calls block_size ctx symbol input 0 nows pool).weight file
        n.h1 n.h2) NOT_FOUND = true ∧
      (winnow_learn_calls block_size ctx symbol input 0 (nows ++ [now]) pool).weight file
        n.h1 n.h2 = fp.to_float WINNOW_DEMOTION ∧
      fp.lt
        ((winnow_learn_calls block_size ctx symbol input 0 (nows ++ [now]) pool).weight file
          n.h1 n.h2)
        ((winnow_learn_calls block_size ctx symbol input 0 nows pool).weight file
          n.h1 n.h2) = false) := by
  have hc : fp.to_float WINNOW_DEMOTION = fp.fin false 13925089 (-24) := by decide
  have hw := calls_demote_unseen block_size ctx symbol input file hnd n hmem pool hacq hunseen
  refine ⟨?_, ?_, ?_⟩
  · intro now
    rw [hw [now] (by simp), hc]
    exact ⟨rfl, demote_first⟩
  · intro nows now hne hlen
    obtain ⟨k, hk⟩ := Nat.exists_eq_succ_of_ne_zero (fun h => hne (List.length_eq_zero.1 h))
    rw [hw (nows ++ [now]) (by simp), hw nows hne]
    simp only [List.length_append, List.length_singleton, hk, Nat.add_sub_cancel]
    exact demote_chain k (by omega)
  · intro nows now hlen
    have hne : nows ≠ [] := by intro h; rw [h] at hlen; simp at hlen
    rw [hw (nows ++ [now]) (by simp), hw nows hne]
    simp only [List.length_append, List.length_singleton, hlen, Nat.add_sub_cancel]
    rw [demote_63, hc]
    have h61 : (62 : Nat) - 1 = 61 := rfl
    rw [h61, demote_62]
    exact ⟨by rw [NOT_FOUND_eq]; decide, rfl, demote_63_not_lt⟩

/-- Witness of C17: the third demotion of an unseen token in the store of A leaves less
than the second. -/
theorem winnow_learn_demotions_decrease_witness :
    fp.lt
      ((winnow_learn_calls 16 abcd_ctx "A" one_token 0 ([0, 1] ++ [2]) abcd_pool).weight
        "/a" 1 2)
      ((winnow_learn_calls 16 abcd_ctx "A" one_token 0 [0, 1] abcd_pool).weight "/a" 1 2) =
        true :=
  (winnow_learn_demotions_decrease 16 abcd_ctx abcd_pool "A" one_token ⟨1, 2⟩ "/a"
    (by decide) (by simp [one_token]) (by simp [one_token])
    (abcd_unseen "/a" 1 2)).2.1 [0, 1] 2 (by simp) (by simp)

/-- Counterexample of C18: the class B has the size 1024 and its store has to be created;
with blocks of 16 bytes the create is called with 64, not with 1024. -/
theorem winnow_learn_create_capacity_counterexample :
    (⟨"B", "/b", 1024⟩ : statfile) ∈ abcd_ctx.cfg.statfiles ∧
      Op.create "/b" 64 ∈ (winnow_learn 16 abcd_ctx abcd_pool "B" one_token 1 0).trace ∧
      Op.create "/b" 1024 ∉ (winnow_learn 16 abcd_ctx abcd_pool "B" one_token 1 0).trace := by
  obtain ⟨ops, h1, h2⟩ := winnow_learn_create_ops 16 abcd_ctx abcd_pool "B" one_token 1 0
    ⟨"B", "/b", 1024⟩ (by decide) (by decide)
  refine ⟨by simp [abcd_ctx], ?_, ?_⟩
  · rw [h1]; simp
  · rw [h1]
    intro hmem
    simp [abcd_pool] at hmem
    exact h2 _ hmem "/b" 1024 rfl

/-- Claim C18 (amended). When `winnow_learn` has to create the store of the matched class
(its open failed), it calls create once, with the path of the class and with a capacity
equal to the configured size of the class divided by `sizeof (struct stat_file_block)`
(integer division). -/
theorem winnow_learn_create_capacity (block_size : Nat) (ctx : classifier_ctx)
    (pool : statfile_pool_t) (symbol : String) (input : List token_node_t) (in_class : Int)
    (now : Nat) (st : statfile)
    (hcl : learn_class symbol ctx.cfg.statfiles = some st)
    (hfail : (statfile_pool_open pool st.path).1 = none) :
    ∃ ops : List Op,
      (winnow_learn block_size ctx pool symbol input in_class now).trace =
        pool.trace ++
          Op.open_file st.path :: Op.create st.path (st.size / block_size) :: ops ∧
      ∀ op ∈ ops, ∀ p k, op ≠ Op.create p k :=
  winnow_learn_create_ops block_size ctx pool symbol input in_class now st hcl hfail

/-- Witness of C18: the store of B is created with 1024 / 16 = 64 blocks. -/
theorem winnow_learn_create_capacity_witness :
    ∃ ops : List Op,
      (winnow_learn 16 abcd_ctx abcd_pool "B" one_token 1 0).trace =
        abcd_pool.trace ++ Op.open_file "/b" :: Op.create "/b" 64 :: ops ∧
      ∀ op ∈ ops, ∀ p k, op ≠ Op.create p k :=
  winnow_learn_create_capacity 16 abcd_ctx abcd_pool "B" one_token 1 0 ⟨"B", "/b", 1024⟩
    (by decide) (by decide)

/-- Counterexample of C19: the stores of A, B, C hold `2 ^ 60`, `1` and `2 ^ 61` for the
token of the document. The effective weights of A and B total `2 ^ 60 + 1`, but B, the
second class, is compared as `2 ^ 59`, not as `(2 ^ 60 + 1) / 2`: the `double` sum
rounds `2 ^ 60 + 1` to `2 ^ 60`. C is then compared as `2 ^ 60`, and A stays selected. -/
theorem winnow_classify_cumulative_counterexample :
    classify_res one_token
        (List.foldl (classify_step one_token) (classify_init big_pool 0) [⟨"A", "/a", 1024⟩])
        ⟨"B", "/b", 1024⟩ = some (fp.fin false 1 59) ∧
      (effective (big_pool.weight "/a" 1 2)).value +
        (effective (big_pool.weight "/b" 1 2)).value = 2 ^ 60 + 1 ∧
      (fp.fin false 1 59).value ≠ (2 ^ 60 + 1) / (2 * 1) ∧
      classify_res one_token
        (List.foldl (classify_step one_token) (classify_init big_pool 0)
          [⟨"A", "/a", 1024⟩, ⟨"B", "/b", 1024⟩])
        ⟨"C", "/c", 1024⟩ = some (fp.fin false 1 60) ∧
      (winnow_classify abc_ctx big_pool one_token 0).sel = some ⟨"A", "/a", 1024⟩ := by
  refine ⟨big_eval.1, ?_, ?_, big_eval.2.1, big_eval.2.2.2.2⟩
  · rw [big_eval.2.2.1, big_eval.2.2.2.1]
    simp only [fp.value]
    norm_num
  · simp only [fp.value]
    norm_num

/-- Claim C19 (amended). Cumulative accumulators in classify: `sum` and `count` are set once
before the loop and never reset, so for a non-empty document the value of `*res` compared
with the running maximum in the iteration of a class `st` whose store is usable, the k-th
such class, is the `double` sum of the effective token weights over the first k usable
classes, accumulated token after token with a rounding at every addition, divided by k
times the number of tokens, when this number is below `2 ^ 31`; `max` and `sel` are
updated by that comparison, and `sum` and `count` hold that sum and that number. -/
theorem winnow_classify_cumulative (ctx : classifier_ctx) (pool : statfile_pool_t)
    (input : List token_node_t) (now : Nat) (pre post : List statfile) (st : statfile)
    (hcfg : ctx.cfg.statfiles = pre ++ st :: post) (hu : usable pool st.path = true)
    (hne : input ≠ [])
    (hcount : ((pre.filter (fun c => usable pool c.path)).length + 1) * input.length <
      2 ^ 31) :
    classify_res input (pre.foldl (classify_step input) (classify_init pool now)) st =
        some (cumulative_score pool input
          (pre.filter (fun c => usable pool c.path) ++ [st])) ∧
      (classify_step input (pre.foldl (classify_step input) (classify_init pool now)) st).max =
        (if fp.lt (pre.foldl (classify_step input) (classify_init pool now)).max
            (cumulative_score pool input (pre.filter (fun c => usable pool c.path) ++ [st]))
          then cumulative_score pool input (pre.filter (fun c => usable pool c.path) ++ [st])
          else (pre.foldl (classify_step input) (classify_init pool now)).max) ∧
      (classify_step input (pre.foldl (classify_step input) (classify_init pool now)) st).sel =
        (if fp.lt (pre.foldl (classify_step input) (classify_init pool now)).max
            (cumulative_score pool input (pre.filter (fun c => usable pool c.path) ++ [st]))
          then some st
          else (pre.foldl (classify_step input) (classify_init pool now)).sel) ∧
      (classify_step input (pre.foldl (classify_step input) (classify_init pool now))
          st).data.sum =
        (pre.filter (fun c => usable pool c.path) ++ [st]).foldl
          (fun acc c => class_add pool c.path input acc) fp.zero ∧
      (classify_step input (pre.foldl (classify_step input) (classify_init pool now))
          st).data.count =
        ((((pre.filter (fun c => usable pool c.path)).length + 1) * input.length : Nat) : Int) ∧
      (winnow_classify ctx pool input now).sel =
        (post.foldl (classify_step input)
          (classify_step input (pre.foldl (classify_step input) (classify_init pool now))
            st)).sel := by
  obtain ⟨hro, hsc⟩ := classify_loop_spec pool input pre (classify_init pool now)
    (reads_only_init pool now)
  obtain ⟨t1, t2⟩ := score_fold_totals pool input pre (classify_init pool now).scores
  have hsum : (pre.foldl (classify_step input) (classify_init pool now)).data.sum =
      (pre.filter (fun c => usable pool c.path)).foldl
        (fun acc c => class_add pool c.path input acc) fp.zero := by
    have hs : (pre.foldl (classify_step input) (classify_init pool now)).data.sum =
        (pre.foldl (score_step pool input) (classify_init pool now).scores).sum :=
      congrArg score_state.sum hsc
    rw [hs, t1]
    rfl
  have hcnt : (pre.foldl (classify_step input) (classify_init pool now)).data.count =
      count_add 0 ((pre.filter (fun c => usable pool c.path)).length * input.length) := by
    have hs : (pre.foldl (classify_step input) (classify_init pool now)).data.count =
        (pre.foldl (score_step pool input) (classify_init pool now).scores).count :=
      congrArg score_state.count hsc
    rw [hs, t2]
    rfl
  have hlen : 0 < input.length := List.length_pos.2 hne
  have hk : (pre.filter (fun c => usable pool c.path)).length * input.length + input.length =
      ((pre.filter (fun c => usable pool c.path)).length + 1) * input.length := by ring
  have hres : classify_res input (pre.foldl (classify_step input) (classify_init pool now)) st =
      some (cumulative_score pool input
        (pre.filter (fun c => usable pool c.path) ++ [st])) := by
    rw [classify_res_spec pool input _ st hro, if_pos hu, hsum, hcnt, count_add_add, hk,
      count_add_zero _ (by simpa using hcount)]
    have hc : ((((pre.filter (fun c => usable pool c.path)).length + 1) * input.length : Nat) :
        Int) ≠ 0 := by
      have : 0 < ((pre.filter (fun c => usable pool c.path)).length + 1) * input.length :=
        Nat.mul_pos (Nat.succ_pos _) hlen
      exact_mod_cast this.ne'
    rw [score_res, if_pos hc]
    simp only [cumulative_score, List.foldl_append, List.foldl_cons, List.foldl_nil,
      List.length_append, List.length_singleton]
  obtain ⟨m1, m2⟩ := classify_step_res input
    (pre.foldl (classify_step input) (classify_init pool now)) st
  rw [hres] at m1 m2
  obtain ⟨-, u2, u3⟩ := classify_step_usable pool input
    (pre.foldl (classify_step input) (classify_init pool now)) st hro hu
  refine ⟨hres, m1, m2, ?_, ?_, ?_⟩
  · rw [u2, hsum, List.foldl_append, List.foldl_cons, List.foldl_nil]
  · rw [u3, hcnt, count_add_add, hk, count_add_zero _ (by simpa using hcount)]
  · rw [winnow_classify_fold, hcfg, List.foldl_append, List.foldl_cons]

/-- Witness of C19: in the three-class example the second class B, of own score `0.9f`, is
compared as the `double` quotient of `0.4f + 0.9f` by 2. -/
theorem winnow_classify_cumulative_witness :
    classify_res one_token
        (List.foldl (classify_step one_token) (classify_init abc_pool 0)
          [⟨"A", "/a", 1024⟩]) ⟨"B", "/b", 1024⟩ = some (fp.fin false 43620761 (-26)) ∧
      class_score abc_pool "/b" one_token = fp.fin false 7549747 (-23) := by
  have h := (winnow_classify_cumulative abc_ctx abc_pool one_token 0 [⟨"A", "/a", 1024⟩]
    [⟨"C", "/c", 1024⟩] ⟨"B", "/b", 1024⟩ rfl (by simp [usable, abc_pool])
    (by simp [one_token]) (by simp [one_token, usable, abc_pool])).1
  refine ⟨?_, abc_cumulative.2⟩
  rw [h]
  have e : List.filter (fun c => usable abc_pool c.path) [(⟨"A", "/a", 1024⟩ : statfile)] =
      [⟨"A", "/a", 1024⟩] := by simp [usable, abc_pool]
  rw [e]
  exact congrArg some abc_cumulative.1

end Winnow
